import Mathlib

/-!
# Verification of the node-remote-debugger core

A shallow embedding of the remote-debugger client described by
`src/lib/index.d.ts` and `src/unnamed/part_000`, together with proofs of the
behavioural properties stated in the specification.

The repository ships the public declaration file of the `RemoteDebugger`
facade (`src/lib/index.d.ts`) and the `isCallable` helper
(`src/unnamed/part_000`).  The bodies of the facade's methods
(`unwrapValue`, `dbg`, `dbgIf`, `addHost`, `getStackTrace`, the encoder
and the dispatcher) are not part of the sources, so those operations are
modelled from the specification; every such definition carries a doc
comment starting with `Modelled from the spec:` naming what is missing.
-/

set_option maxHeartbeats 1000000

namespace NodeRemoteDebugger

/-! ## Value resolution (`unwrapValue`)

`DataProvider<T>` in the source is
`(obj: RemoteDebugger, data: EventData, step: number, maxSteps: number) => T | DataProvider<T>`.
Following the specification's design note, a literal-or-provider value is a
tagged union.  The `obj`/`data` arguments of a provider are fixed for the
whole resolution, so a provider is modelled as a function of the two
varying arguments `step` and `maxSteps`. -/

/-- A value that is either a literal of type `T` or a provider function
producing the next value of the chain. -/
inductive Value (T : Type) where
  | literal (t : T)
  | provider (f : Nat → Nat → Value T)

/-- Discriminant of the literal-or-provider union: is the value callable?
(The tagged-union replacement for the runtime `isCallable` probe.) -/
def Value.callable {T : Type} : Value T → Bool
  | .literal _ => false
  | .provider _ => true

/-- The default maximum number of resolution steps (design choice: 64). -/
def DEFAULT_MAX_STEPS : Nat := 64

/-- Modelled from the spec: the body of `RemoteDebugger.unwrapValue` is not in
the sources.  Resolution proceeds iteratively: while the current value is
callable and the step counter is below `maxSteps`, the provider is invoked
with the current step and the step is incremented; otherwise the current
value is returned (which may still be a callable once `maxSteps` is
reached). -/
def unwrapValue {T : Type} (val : Value T) (step maxSteps : Nat) : Value T :=
  match val with
  | .literal t => .literal t
  | .provider f =>
    if _h : step < maxSteps then
      unwrapValue (f step maxSteps) (step + 1) maxSteps
    else
      .provider f
termination_by maxSteps - step
decreasing_by omega

/-- The number of provider invocations `unwrapValue` performs on the same
input (same recursion structure as `unwrapValue`). -/
def unwrapCount {T : Type} (val : Value T) (step maxSteps : Nat) : Nat :=
  match val with
  | .literal _ => 0
  | .provider f =>
    if _h : step < maxSteps then
      unwrapCount (f step maxSteps) (step + 1) maxSteps + 1
    else
      0
termination_by maxSteps - step
decreasing_by omega

/-- `reachesLit v step maxSteps k t` holds when the provider chain starting
at `v` (each provider invoked with the current step counter, exactly as
`unwrapValue` invokes it) reaches the literal `t` after exactly `k`
invocations. -/
def reachesLit {T : Type} [DecidableEq T] : Value T → Nat → Nat → Nat → T → Bool
  | .literal u, _, _, 0, t => u = t
  | .provider _, _, _, 0, _ => false
  | .literal _, _, _, _ + 1, _ => false
  | .provider f, step, maxSteps, k + 1, t => reachesLit (f step maxSteps) (step + 1) maxSteps k t

/-- `allCallable v step maxSteps n` holds when the first `n` values of the
chain starting at `v` (with providers invoked exactly as `unwrapValue`
invokes them) are all callable. -/
def allCallable {T : Type} : Value T → Nat → Nat → Nat → Bool
  | _, _, _, 0 => true
  | .literal _, _, _, _ + 1 => false
  | .provider f, step, maxSteps, n + 1 => allCallable (f step maxSteps) (step + 1) maxSteps n

/-- The value produced after exactly `n` provider invocations (or `none` if
a literal is reached earlier). -/
def invokeN {T : Type} : Value T → Nat → Nat → Nat → Option (Value T)
  | v, _, _, 0 => some v
  | .literal _, _, _, _ + 1 => none
  | .provider f, step, maxSteps, n + 1 => invokeN (f step maxSteps) (step + 1) maxSteps n

/-- A straight-line provider chain of length `k` ending in the literal `t`. -/
def chainOf {T : Type} : Nat → T → Value T
  | 0, t => .literal t
  | k + 1, t => .provider (fun _ _ => chainOf k t)

/-! ## Runtime values and `isCallable` (src/unnamed/part_000)

`isCallable` is implemented in the sources as `typeof val === "function"`.
JavaScript runtime values are embedded as an inductive universe together
with the `typeof` operator's classification. -/

/-- A JavaScript runtime value (as far as `typeof` discriminates them). -/
inductive JsValue where
  | str (s : String)
  | num (n : Int)
  | boolean (b : Bool)
  | object (fields : List (String × JsValue))
  | array (elems : List JsValue)
  | null
  | undefined
  | func (name : String)

/-- JavaScript's `typeof` operator on the embedded values (`typeof null`
and `typeof` of an array are both `"object"`). -/
def typeOf : JsValue → String
  | .str _ => "string"
  | .num _ => "number"
  | .boolean _ => "boolean"
  | .object _ => "object"
  | .array _ => "object"
  | .null => "object"
  | .undefined => "undefined"
  | .func _ => "function"

/-- `isCallable` from `src/unnamed/part_000`:
`return typeof val === "function";`. -/
def isCallable (val : JsValue) : Bool :=
  typeOf val == "function"

/-! ## Hosts and the dispatch pipeline (`dbg` / `dbgIf`)

The bodies of `dbg`, `dbgIf`, the encoder and the dispatcher are not in the
sources; the pipeline is modelled from the specification (sections 4.3-4.5
and 7 of the spec).  External collaborators (host providers, the
transformer, the transport) are arbitrary code that either succeeds or
fails; a configuration records, per dispatch, the observable behaviour of
each collaborator. -/

/-- `HostData` from `src/lib/index.d.ts`: one resolved remote endpoint. -/
structure HostData where
  addr : Option String
  port : Option Nat
  timeout : Option Nat
deriving Repr, DecidableEq

/-- Modelled from the spec: the observable behaviour of one registered
host's `HostProvider` during a single dispatch — it either resolves to a
`HostData` or throws. -/
inductive ProviderOutcome where
  | ok (h : HostData)
  | throws
deriving Repr, DecidableEq

/-- Modelled from the spec: the observable behaviour of the send operation
for one host — success, a connection failure (or timeout), or a write
failure after the connection succeeded. -/
inductive SendOutcome where
  | success
  | connectFail
  | sendFail
deriving Repr, DecidableEq

/-- Modelled from the spec: one registered host together with the behaviour
its provider and its send operation exhibit during the dispatch under
consideration. -/
structure HostSpec where
  provider : ProviderOutcome
  sendResult : SendOutcome
deriving Repr, DecidableEq

/-- Modelled from the spec: the facade configuration visible to one
`dbg`/`dbgIf` call — the registered hosts, whether an `errorHandler` is
configured, and whether the configured `jsonTransformer` or a value
provider (app / target client) throws during this call. -/
structure Config where
  hosts : List HostSpec
  hasErrorHandler : Bool
  transformThrows : Bool
  unwrapThrows : Bool
deriving Repr, DecidableEq

/-- Modelled from the spec: the `condition` argument of `dbgIf` — either a
boolean literal or a condition function that returns a boolean or throws. -/
inductive CondVal where
  | lit (b : Bool)
  | fnOk (b : Bool)
  | fnThrows
deriving Repr, DecidableEq

/-- An observable event of one `dbg`/`dbgIf` call: the sender being invoked
for host `i`, a send to host `i` completing successfully, or the configured
error handler being called with a category string. -/
inductive Event where
  | senderInvoked (i : Nat)
  | sendSucceeded (i : Nat)
  | handlerCalled (category : String)
deriving Repr, DecidableEq

/-- Modelled from the spec: a failure caught at its origin is routed to the
configured error handler; with no error handler configured it is silently
dropped (no observable event). -/
def routeError (cfg : Config) (category : String) : List Event :=
  if cfg.hasErrorHandler then [.handlerCalled category] else []

/-- Modelled from the spec: dispatch of the encoded buffer to one host
(spec section 4.5): resolve the `HostProvider` (a throw is reported as a
`"host"` failure and the sender is not invoked), then invoke the sender; a
connection failure or timeout is reported as `"connect"`, a write failure
as `"send"`. -/
def dispatchHost (cfg : Config) (i : Nat) (h : HostSpec) : List Event :=
  match h.provider with
  | .throws => routeError cfg "host"
  | .ok _ =>
    match h.sendResult with
    | .success => [.senderInvoked i, .sendSucceeded i]
    | .connectFail => .senderInvoked i :: routeError cfg "connect"
    | .sendFail => .senderInvoked i :: routeError cfg "send"

/-- Modelled from the spec: dispatch to every registered host in
registration order, each attempt independent of the others; `start` is the
index of the first host of `hs` in the registry. -/
def dispatchAll (cfg : Config) (start : Nat) : List HostSpec → List Event
  | [] => []
  | h :: hs => dispatchHost cfg start h ++ dispatchAll cfg (start + 1) hs

/-- Modelled from the spec: the body of `RemoteDebugger.dbg` is not in the
sources.  One `dbg` call: build the snapshot (a throwing app/client value
provider is reported as an `"unwrap"` failure and does not abort), encode
the entry (a throwing `jsonTransformer` is reported as a `"transform"`
failure and aborts this entry's transmission: no host is dispatched), then
dispatch to every registered host. -/
def runDbg (cfg : Config) : List Event :=
  (if cfg.unwrapThrows then routeError cfg "unwrap" else []) ++
    (if cfg.transformThrows then routeError cfg "transform"
     else dispatchAll cfg 0 cfg.hosts)

/-- Modelled from the spec: the body of `RemoteDebugger.dbgIf` is not in
the sources.  A boolean condition is used directly; a condition function is
invoked, a throw being reported as a `"condition"` failure; only a true
condition proceeds to build and dispatch the snapshot. -/
def runDbgIf (cfg : Config) (cond : CondVal) : List Event :=
  match cond with
  | .lit true => runDbg cfg
  | .lit false => []
  | .fnOk true => runDbg cfg
  | .fnOk false => []
  | .fnThrows => routeError cfg "condition"

/-- The number of sender invocations for host `i` in a trace. -/
def countSenderInvoked (tr : List Event) (i : Nat) : Nat :=
  tr.count (.senderInvoked i)

/-- The total number of sender invocations in a trace. -/
def totalSenderInvoked (tr : List Event) : Nat :=
  tr.countP (fun e => match e with | .senderInvoked _ => true | _ => false)

/-- The number of successful sends for host `i` in a trace. -/
def countSendSucceeded (tr : List Event) (i : Nat) : Nat :=
  tr.count (.sendSucceeded i)

/-- The total number of successful sends in a trace. -/
def totalSendSucceeded (tr : List Event) : Nat :=
  tr.countP (fun e => match e with | .sendSucceeded _ => true | _ => false)

/-- The categories of the error-handler invocations of a trace, in order. -/
def handlerCalls (tr : List Event) : List String :=
  tr.filterMap (fun e => match e with | .handlerCalled c => some c | _ => none)

/-- The failure category host `h` induces during dispatch (`none` when its
provider resolves and its send succeeds). -/
def failCategory (h : HostSpec) : Option String :=
  match h.provider with
  | .throws => some "host"
  | .ok _ =>
    match h.sendResult with
    | .success => none
    | .connectFail => some "connect"
    | .sendFail => some "send"

/-- `true` when the host's provider resolves (so the sender is invoked for
it). -/
def providerResolves (h : HostSpec) : Bool :=
  match h.provider with
  | .ok _ => true
  | .throws => false

/-- `true` when the host's provider resolves and its send succeeds. -/
def hostSucceeds (h : HostSpec) : Bool :=
  failCategory h = none

/-- The failure categories a configuration and condition induce in one
`dbgIf` call, in pipeline order, as the specification describes them: a
throwing condition function reports `"condition"` and nothing else; a false
condition induces nothing; otherwise a throwing value provider reports
`"unwrap"`, then a throwing transformer reports `"transform"` and aborts
dispatch, else each failing host reports its own category. -/
def inducedFailures (cfg : Config) (cond : CondVal) : List String :=
  match cond with
  | .fnThrows => ["condition"]
  | .lit false => []
  | .fnOk false => []
  | _ =>
    (if cfg.unwrapThrows then ["unwrap"] else []) ++
      (if cfg.transformThrows then ["transform"]
       else cfg.hosts.filterMap failCategory)

/-! ## The host registry and the facade state (`addHost`)

The body of `addHost` and the facade's field layout are not in the sources
(only the class declaration is); the registry is modelled from the
specification, section 4.2.  A `HostProvider` in the source is
`(obj: RemoteDebugger) => HostData`; the facade argument is elided (a
provider is a function of no further input), which keeps providers
first-class so that "registers that function directly" is expressible. -/

/-- The default port (`DEFAULT_PORT` in the source, value from the spec). -/
def DEFAULT_PORT : Nat := 23654

/-- The default timeout in milliseconds (`DEFAULT_TIMEOUT` in the source,
value from the spec). -/
def DEFAULT_TIMEOUT : Nat := 5000

/-- Modelled from the spec: the loop-back address used by `addHost` when no
address is given. -/
def LOOPBACK_ADDRESS : String := "127.0.0.1"

/-- A registered host provider (`HostProvider` with the facade argument
elided). -/
def HostProviderFn : Type := Unit → HostData

/-- The facade state: the registered provider list (`_hostProviders` in the
source) and the literal-or-provider configuration fields.  The remaining
configuration fields (`errorHandler`, `jsonTransformer`, `sender`) are
behaviour, modelled separately by `Config`. -/
structure RemoteDebugger where
  _hostProviders : List HostProviderFn
  app : Value String
  targetClient : Value String

/-- The first argument of `addHost`: absent, an address string, or a
`HostProvider` function. -/
inductive AddressOrProvider where
  | absent
  | address (a : String)
  | provider (p : HostProviderFn)

/-- Modelled from the spec: the static provider `addHost` builds from an
optional address, port and timeout, filling in the loop-back address,
`DEFAULT_PORT` and `DEFAULT_TIMEOUT` for absent arguments. -/
def staticHostProvider (addr : Option String) (port timeout : Option Nat) :
    HostProviderFn :=
  fun _ =>
    { addr := some (addr.getD LOOPBACK_ADDRESS)
      port := some (port.getD DEFAULT_PORT)
      timeout := some (timeout.getD DEFAULT_TIMEOUT) }

/-- Modelled from the spec: the body of `RemoteDebugger.addHost` is not in
the sources.  A string or absent first argument registers a static provider
built from the address, port and timeout (with defaults); a function is
registered directly as the provider, the port and timeout arguments being
ignored.  The updated facade is returned for chaining. -/
def addHost (self : RemoteDebugger) (addressOrProvider : AddressOrProvider)
    (port timeout : Option Nat) : RemoteDebugger :=
  match addressOrProvider with
  | .absent =>
    { self with
        _hostProviders :=
          self._hostProviders ++ [staticHostProvider none port timeout] }
  | .address a =>
    { self with
        _hostProviders :=
          self._hostProviders ++ [staticHostProvider (some a) port timeout] }
  | .provider p =>
    { self with _hostProviders := self._hostProviders ++ [p] }

/-- An operation on the facade: registering a host, a `dbg`/`dbgIf` call
(which dispatches but does not change the facade state), or assigning one
of the configuration fields. -/
inductive FacadeOp where
  | addHostOp (aop : AddressOrProvider) (port timeout : Option Nat)
  | dbgOp
  | dbgIfOp
  | setApp (v : Value String)
  | setTargetClient (v : Value String)

/-- Modelled from the spec: the effect of one facade operation on the
facade state.  `dbg`/`dbgIf` read the provider list but do not change the
state. -/
def applyOp (self : RemoteDebugger) : FacadeOp → RemoteDebugger
  | .addHostOp aop port timeout => addHost self aop port timeout
  | .dbgOp => self
  | .dbgIfOp => self
  | .setApp v => { self with app := v }
  | .setTargetClient v => { self with targetClient := v }

/-- The effect of a sequence of facade operations, applied in order. -/
def applyOps (self : RemoteDebugger) : List FacadeOp → RemoteDebugger
  | [] => self
  | op :: ops => applyOps (applyOp self op) ops

/-! ## Stack frames and backtrace capture -/

/-- `StackFrame` from `src/lib/index.d.ts`: one captured call frame. -/
structure StackFrame where
  column : Option Nat
  file : Option String
  func : Option String
  line : Option Nat
deriving Repr, DecidableEq

/-- Modelled from the spec: the body of `RemoteDebugger.getStackTrace` is
not in the sources.  `currentStack` is the program's call stack at the call
site, innermost frame first, with the frames of the instrumentation call
path itself already excluded; `getStackTrace` drops the requested number of
innermost frames. -/
def getStackTrace (currentStack : List StackFrame) (skipFrames : Nat) :
    List StackFrame :=
  currentStack.drop skipFrames

/-! ## JSON texts

The wire payload is the JSON text of a condensed `RemoteDebuggerEntry`
(absent fields omitted).  The JSON encoding/decoding primitive is an
external collaborator of the repository; it is instantiated here by a
concrete serializer (no whitespace, `"` and `\` escaped) and a fuel-bounded
parser, so that the wire round trip can be proved rather than assumed. -/

/-- A JSON value.  Numbers are the natural numbers (every number the entry
encoder emits is a non-negative integer). -/
inductive Json where
  | null
  | bool (b : Bool)
  | num (n : Nat)
  | str (s : String)
  | arr (xs : List Json)
  | obj (fields : List (String × Json))

/-- The decimal digit characters. -/
def digitChar : Nat → Char
  | 0 => '0'
  | 1 => '1'
  | 2 => '2'
  | 3 => '3'
  | 4 => '4'
  | 5 => '5'
  | 6 => '6'
  | 7 => '7'
  | 8 => '8'
  | _ => '9'

/-- The numeric value of a decimal digit character. -/
def charDigit (c : Char) : Nat := c.toNat - 48

/-- Whether a character is a decimal digit. -/
def isDigitChar (c : Char) : Bool :=
  decide (48 ≤ c.toNat) && decide (c.toNat ≤ 57)

/-- The decimal digits of `n`, most significant first (`fuel`-driven
structural recursion; any `fuel ≥ n` gives the digits). -/
def natDigitsAux : Nat → Nat → List Char
  | 0, n => [digitChar (n % 10)]
  | fuel + 1, n =>
    if n < 10 then [digitChar n]
    else natDigitsAux fuel (n / 10) ++ [digitChar (n % 10)]

/-- The decimal digits of `n`, most significant first. -/
def natDigits (n : Nat) : List Char := natDigitsAux n n

/-- JSON string escaping of one character (`"` and `\` get a backslash). -/
def escapeChar (c : Char) : List Char :=
  if c = '"' ∨ c = '\\' then ['\\', c] else [c]

/-- JSON string escaping of a character list. -/
def escapeList : List Char → List Char
  | [] => []
  | c :: cs => escapeChar c ++ escapeList cs

mutual

/-- Serialize a JSON value to its text (no whitespace). -/
def renderJson : Json → List Char
  | .null => "null".data
  | .bool true => "true".data
  | .bool false => "false".data
  | .num n => natDigits n
  | .str s => '"' :: (escapeList s.data ++ ['"'])
  | .arr xs => '[' :: (renderItems xs ++ [']'])
  | .obj fs => '\x7b' :: (renderFields fs ++ ['\x7d'])

/-- Serialize the comma-separated element list of a JSON array. -/
def renderItems : List Json → List Char
  | [] => []
  | [x] => renderJson x
  | x :: y :: xs => renderJson x ++ ',' :: renderItems (y :: xs)

/-- Serialize the comma-separated member list of a JSON object. -/
def renderFields : List (String × Json) → List Char
  | [] => []
  | [(k, v)] => renderKV k v
  | (k, v) :: g :: fs => renderKV k v ++ ',' :: renderFields (g :: fs)

/-- Serialize one `"key":value` member of a JSON object. -/
def renderKV (k : String) (v : Json) : List Char :=
  '"' :: (escapeList k.data ++ '"' :: ':' :: renderJson v)

end

/-- Parse the body of a JSON string after the opening quote, undoing the
escaping; returns the content and the input following the closing quote. -/
def parseStringBody : List Char → Option (List Char × List Char)
  | [] => none
  | c :: rest =>
    if c = '"' then some ([], rest)
    else if c = '\\' then
      match rest with
      | [] => none
      | d :: rest2 =>
        match parseStringBody rest2 with
        | some (s, r) => some (d :: s, r)
        | none => none
    else
      match parseStringBody rest with
      | some (s, r) => some (c :: s, r)
      | none => none

/-- Parse a JSON number: the maximal leading run of digit characters. -/
def parseNumber (cs : List Char) : Option (Nat × List Char) :=
  let ds := cs.takeWhile isDigitChar
  if ds.isEmpty then none
  else some (ds.foldl (fun acc c => 10 * acc + charDigit c) 0,
             cs.dropWhile isDigitChar)

mutual

/-- Parse one JSON value from the input (fuel-bounded; any fuel at least
the size of the value suffices). -/
def parseValue : Nat → List Char → Option (Json × List Char)
  | 0, _ => none
  | fuel + 1, cs =>
    match cs with
    | [] => none
    | c :: rest =>
      if c = '"' then
        match parseStringBody rest with
        | some (s, r) => some (.str (String.mk s), r)
        | none => none
      else if c = '[' then parseItems fuel rest
      else if c = '\x7b' then parseFields fuel rest
      else if c = 'n' then
        match rest with
        | 'u' :: 'l' :: 'l' :: r => some (.null, r)
        | _ => none
      else if c = 't' then
        match rest with
        | 'r' :: 'u' :: 'e' :: r => some (.bool true, r)
        | _ => none
      else if c = 'f' then
        match rest with
        | 'a' :: 'l' :: 's' :: 'e' :: r => some (.bool false, r)
        | _ => none
      else if isDigitChar c then
        match parseNumber (c :: rest) with
        | some (n, r) => some (.num n, r)
        | none => none
      else none

/-- Parse the element list of a JSON array after the opening bracket,
including the closing bracket. -/
def parseItems : Nat → List Char → Option (Json × List Char)
  | 0, _ => none
  | fuel + 1, cs =>
    if cs.head? = some ']' then some (.arr [], cs.tail)
    else
      match parseValue fuel cs with
      | some (x, ',' :: r) =>
        match parseItems fuel r with
        | some (.arr xs, r2) => some (.arr (x :: xs), r2)
        | _ => none
      | some (x, ']' :: r) => some (.arr [x], r)
      | _ => none

/-- Parse the member list of a JSON object after the opening brace,
including the closing brace. -/
def parseFields : Nat → List Char → Option (Json × List Char)
  | 0, _ => none
  | fuel + 1, cs =>
    if cs.head? = some '\x7d' then some (.obj [], cs.tail)
    else
      match cs with
      | '"' :: cs1 =>
        match parseStringBody cs1 with
        | some (k, ':' :: cs2) =>
          match parseValue fuel cs2 with
          | some (v, ',' :: cs3) =>
            match parseFields fuel cs3 with
            | some (.obj fs, r) => some (.obj ((String.mk k, v) :: fs), r)
            | _ => none
          | some (v, '\x7d' :: cs3) => some (.obj [(String.mk k, v)], cs3)
          | _ => none
        | _ => none
      | _ => none

end

mutual

/-- A size measure of a JSON value, bounding the parser fuel it needs. -/
def jsonSize : Json → Nat
  | .null => 1
  | .bool _ => 1
  | .num _ => 1
  | .str _ => 1
  | .arr xs => 1 + jsonSizeItems xs
  | .obj fs => 1 + jsonSizeFields fs

/-- Size measure of an array's element list. -/
def jsonSizeItems : List Json → Nat
  | [] => 1
  | x :: xs => 1 + jsonSize x + jsonSizeItems xs

/-- Size measure of an object's member list. -/
def jsonSizeFields : List (String × Json) → Nat
  | [] => 1
  | (_, v) :: fs => 1 + jsonSize v + jsonSizeFields fs

end

/-- `cs` does not start with a digit (so a decimal number rendered before
`cs` is parsed back without absorbing characters of `cs`). -/
def noDigitHead : List Char → Prop
  | [] => True
  | c :: _ => isDigitChar c = false

/-! ## The wire entry model and the encoder

The condensed wire structures follow `src/lib/index.d.ts`
(`RemoteDebuggerEntry`, `RemoteDebuggerStackFrame`, `RemoteDebuggerThread`,
`RemoteDebuggerVariable`).  The nested scope/variable lists of a condensed
stack frame (`s`/`v`) and the nested `RemoteDebuggerScope` type are not
populated by the modelled encoder (the specification leaves the scope
policy open) and are omitted from the embedding. -/

/-- `RemoteDebuggerStackFrame` from `src/lib/index.d.ts`: a condensed wire
stack frame (`f` file path, `fn` file name, `i` id, `l` line, `ln` full
path, `n` name). -/
structure RemoteDebuggerStackFrame where
  f : Option String
  fn : Option String
  i : Option Nat
  l : Option Nat
  ln : Option String
  n : Option String
deriving Repr, DecidableEq

/-- `RemoteDebuggerThread` from `src/lib/index.d.ts`: a thread (`i` id,
`n` name). -/
structure RemoteDebuggerThread where
  i : Option Nat
  n : Option String
deriving Repr, DecidableEq

/-- `RemoteDebuggerVariable` from `src/lib/index.d.ts`: a condensed wire
variable (`fn` function name, `n` name, `on` object name, `r` reference,
`t` type tag, `v` value — the value is arbitrary JSON). -/
structure RemoteDebuggerVariable where
  fn : Option String
  n : Option String
  «on» : Option String
  r : Option Nat
  t : Option String
  v : Option Json

/-- `RemoteDebuggerEntry` from `src/lib/index.d.ts`: the condensed wire
snapshot (`a` app, `c` client, `f` file, `n` notes, `s` stacktrace, `t`
threads, `v` variables). -/
structure RemoteDebuggerEntry where
  a : Option String
  c : Option String
  f : Option String
  n : Option String
  s : Option (List RemoteDebuggerStackFrame)
  t : Option (List RemoteDebuggerThread)
  v : Option (List RemoteDebuggerVariable)

/-- A user variable value, as far as the encoder's (open) type-tag policy
discriminates it: a primitive, a function (carrying its function name) or
an object (carrying its object-name hint). -/
inductive VarValue where
  | vstr (s : String)
  | vnum (n : Nat)
  | vbool (b : Bool)
  | vnull
  | vfunc (name : String)
  | vobj (objName : String)
deriving Repr, DecidableEq

/-- Modelled from the spec: the encoder's runtime type tag of a variable
value (JavaScript `typeof`; `null` counts as `"object"`). -/
def typeTag : VarValue → String
  | .vstr _ => "string"
  | .vnum _ => "number"
  | .vbool _ => "boolean"
  | .vnull => "object"
  | .vfunc _ => "function"
  | .vobj _ => "object"

/-- `EventData` from `src/lib/index.d.ts`, restricted to the fields the
encoder consumes.  The back-references to the facade (`debugger`, `me`,
`provider`) are elided; `vars` is modelled as named values; `time` as a
numeric timestamp. -/
structure EventData where
  backtrace : List StackFrame
  condition : Option Bool
  host : HostData
  time : Nat
  vars : List (String × VarValue)

/-- Modelled from the spec: the condensed stack frame built from a captured
frame, the id being the original frame index.  The file path maps to `f`,
the line to `l`, the function name to `n`; the column has no condensed key;
`fn`/`ln` are left absent. -/
def condenseFrame (i : Nat) (fr : StackFrame) : RemoteDebuggerStackFrame :=
  { f := fr.file, fn := none, i := some i, l := fr.line, ln := none,
    n := fr.func }

/-- Modelled from the spec: the condensed wire variable built from a named
user variable: the name maps to `n`, the runtime type tag to `t`, a
primitive value to `v`, a function's name additionally to `fn`, an object's
name hint to `on`. -/
def condenseVariable (name : String) (val : VarValue) : RemoteDebuggerVariable :=
  { fn := match val with | .vfunc f => some f | _ => none
    n := some name
    «on» := match val with | .vobj o => some o | _ => none
    r := none
    t := some (typeTag val)
    v := match val with
         | .vstr s => some (.str s)
         | .vnum n => some (.num n)
         | .vbool b => some (.bool b)
         | .vnull => some .null
         | _ => none }

/-- Pair each list element with its index, starting at `i`. -/
def withIndexFrom {α β : Type} (f : Nat → α → β) (i : Nat) : List α → List β
  | [] => []
  | x :: xs => f i x :: withIndexFrom f (i + 1) xs

/-- Modelled from the spec: the condensed wire entry built from an
`EventData` and the resolved app / target-client names — the backtrace maps
to `s` (ids equal to the frame indices), the user variables to `v`, the app
and client names to `a` and `c`. -/
def entryOf (app client : Option String) (ev : EventData) : RemoteDebuggerEntry :=
  { a := app
    c := client
    f := none
    n := none
    s := some (withIndexFrom condenseFrame 0 ev.backtrace)
    t := none
    v := some (ev.vars.map (fun p => condenseVariable p.1 p.2)) }

/-- The JSON member list of one optional condensed field: an absent field
is omitted, not null. -/
def optField (k : String) : Option Json → List (String × Json)
  | some j => [(k, j)]
  | none => []

/-- The JSON object of a condensed stack frame (absent fields omitted). -/
def frameToJson (fr : RemoteDebuggerStackFrame) : Json :=
  .obj (optField "f" (fr.f.map Json.str) ++ optField "fn" (fr.fn.map Json.str) ++
        optField "i" (fr.i.map Json.num) ++ optField "l" (fr.l.map Json.num) ++
        optField "ln" (fr.ln.map Json.str) ++ optField "n" (fr.n.map Json.str))

/-- The JSON object of a condensed thread (absent fields omitted). -/
def threadToJson (th : RemoteDebuggerThread) : Json :=
  .obj (optField "i" (th.i.map Json.num) ++ optField "n" (th.n.map Json.str))

/-- The JSON object of a condensed variable (absent fields omitted). -/
def varToJson (vr : RemoteDebuggerVariable) : Json :=
  .obj (optField "fn" (vr.fn.map Json.str) ++ optField "n" (vr.n.map Json.str) ++
        optField "on" (vr.«on».map Json.str) ++ optField "r" (vr.r.map Json.num) ++
        optField "t" (vr.t.map Json.str) ++ optField "v" vr.v)

/-- The JSON object of a condensed entry (absent fields omitted). -/
def entryToJson (e : RemoteDebuggerEntry) : Json :=
  .obj (optField "a" (e.a.map Json.str) ++ optField "c" (e.c.map Json.str) ++
        optField "f" (e.f.map Json.str) ++ optField "n" (e.n.map Json.str) ++
        optField "s" (e.s.map (fun l => Json.arr (l.map frameToJson))) ++
        optField "t" (e.t.map (fun l => Json.arr (l.map threadToJson))) ++
        optField "v" (e.v.map (fun l => Json.arr (l.map varToJson))))

/-- Look a key up in a JSON object's member list. -/
def getField : List (String × Json) → String → Option Json
  | [], _ => none
  | (k', v) :: fs, k => if k = k' then some v else getField fs k

/-- Decode an optional string field: `some none` when the key is absent,
`none` (failure) when it is present but not a string. -/
def strFieldD (fs : List (String × Json)) (k : String) : Option (Option String) :=
  match getField fs k with
  | none => some none
  | some (.str s) => some (some s)
  | some _ => none

/-- Decode an optional number field. -/
def natFieldD (fs : List (String × Json)) (k : String) : Option (Option Nat) :=
  match getField fs k with
  | none => some none
  | some (.num n) => some (some n)
  | some _ => none

/-- Decode an optional array field to its raw element list. -/
def arrFieldD (fs : List (String × Json)) (k : String) : Option (Option (List Json)) :=
  match getField fs k with
  | none => some none
  | some (.arr xs) => some (some xs)
  | some _ => none

/-- Decode an optional field holding arbitrary JSON. -/
def jsonFieldD (fs : List (String × Json)) (k : String) : Option (Option Json) :=
  some (getField fs k)

/-- Decode a condensed stack frame from JSON. -/
def frameFromJson : Json → Option RemoteDebuggerStackFrame
  | .obj fields =>
    match strFieldD fields "f", strFieldD fields "fn", natFieldD fields "i",
          natFieldD fields "l", strFieldD fields "ln", strFieldD fields "n" with
    | some f, some fn, some i, some l, some ln, some n =>
      some ⟨f, fn, i, l, ln, n⟩
    | _, _, _, _, _, _ => none
  | _ => none

/-- Decode a condensed thread from JSON. -/
def threadFromJson : Json → Option RemoteDebuggerThread
  | .obj fields =>
    match natFieldD fields "i", strFieldD fields "n" with
    | some i, some n => some ⟨i, n⟩
    | _, _ => none
  | _ => none

/-- Decode a condensed variable from JSON. -/
def varFromJson : Json → Option RemoteDebuggerVariable
  | .obj fields =>
    match strFieldD fields "fn", strFieldD fields "n", strFieldD fields "on",
          natFieldD fields "r", strFieldD fields "t", jsonFieldD fields "v" with
    | some fn, some n, some o, some r, some t, some v =>
      some ⟨fn, n, o, r, t, v⟩
    | _, _, _, _, _, _ => none
  | _ => none

/-- Decode every element of a JSON list, failing if any element fails. -/
def decodeAll {α : Type} (dec : Json → Option α) : List Json → Option (List α)
  | [] => some []
  | x :: xs =>
    match dec x, decodeAll dec xs with
    | some y, some ys => some (y :: ys)
    | _, _ => none

/-- Decode an optional JSON list field elementwise. -/
def decodeOptList {α : Type} (dec : Json → Option α) :
    Option (List Json) → Option (Option (List α))
  | none => some none
  | some xs =>
    match decodeAll dec xs with
    | some ys => some (some ys)
    | none => none

/-- Decode a condensed entry from JSON. -/
def entryFromJson : Json → Option RemoteDebuggerEntry
  | .obj fields =>
    match strFieldD fields "a", strFieldD fields "c", strFieldD fields "f",
          strFieldD fields "n", arrFieldD fields "s", arrFieldD fields "t",
          arrFieldD fields "v" with
    | some a, some c, some f, some n, some s, some t, some v =>
      match decodeOptList frameFromJson s, decodeOptList threadFromJson t,
            decodeOptList varFromJson v with
      | some s2, some t2, some v2 => some ⟨a, c, f, n, s2, t2, v2⟩
      | _, _, _ => none
    | _, _, _, _, _, _, _ => none
  | _ => none

/-- Modelled from the spec: the wire buffer of one entry — the serialized
JSON text of its condensed object (the pluggable `jsonTransformer` defaults
to the identity pass-through, so the un-transformed text is the buffer). -/
def encodeEntryBuffer (e : RemoteDebuggerEntry) : List Char :=
  renderJson (entryToJson e)

/-- Decode a wire buffer back to a condensed entry: parse the JSON text
(the parser fuel `2 * length + 2` exceeds the size of any value the buffer
can hold) and decode the condensed object, requiring the whole buffer to be
consumed. -/
def decodeEntryBuffer (buf : List Char) : Option RemoteDebuggerEntry :=
  match parseValue (2 * buf.length + 2) buf with
  | some (j, []) => entryFromJson j
  | _ => none

/-! ## Lemmas: value resolution -/

theorem unwrapValue_literal {T : Type} (t : T) (s m : Nat) :
    unwrapValue (Value.literal t) s m = Value.literal t := by
  simp [unwrapValue]

theorem unwrapValue_provider {T : Type} (f : Nat → Nat → Value T) (s m : Nat) :
    unwrapValue (Value.provider f) s m =
      if s < m then unwrapValue (f s m) (s + 1) m else Value.provider f := by
  rw [unwrapValue]
  simp only [dite_eq_ite]

theorem unwrapCount_literal {T : Type} (t : T) (s m : Nat) :
    unwrapCount (Value.literal t) s m = 0 := by
  simp [unwrapCount]

theorem unwrapCount_provider {T : Type} (f : Nat → Nat → Value T) (s m : Nat) :
    unwrapCount (Value.provider f) s m =
      if s < m then unwrapCount (f s m) (s + 1) m + 1 else 0 := by
  rw [unwrapCount]
  simp only [dite_eq_ite]

/-- A chain that reaches its literal within the step budget resolves to that
literal, invoking each provider once. -/
theorem unwrapValue_of_reachesLit {T : Type} [DecidableEq T] (k : Nat) :
    ∀ (v : Value T) (s m : Nat) (t : T), reachesLit v s m k t = true → s + k ≤ m →
      unwrapValue v s m = Value.literal t ∧ unwrapCount v s m = k := by
  induction k with
  | zero =>
    intro v s m t hr _
    cases v with
    | literal u =>
      have hu : u = t := by simpa [reachesLit] using hr
      subst hu
      exact ⟨unwrapValue_literal u s m, unwrapCount_literal u s m⟩
    | provider f => simp [reachesLit] at hr
  | succ k ih =>
    intro v s m t hr hle
    cases v with
    | literal u => simp [reachesLit] at hr
    | provider f =>
      have hs : s < m := by omega
      have h2 := ih (f s m) (s + 1) m t (by simpa [reachesLit] using hr) (by omega)
      refine ⟨?_, ?_⟩
      · rw [unwrapValue_provider, if_pos hs, h2.1]
      · rw [unwrapCount_provider, if_pos hs, h2.2]

/-- A chain that stays callable for the whole remaining budget is invoked
exactly that many times and resolution returns the last value produced. -/
theorem unwrapValue_of_allCallable {T : Type} (n : Nat) :
    ∀ (v : Value T) (s m : Nat), s + n = m → allCallable v s m n = true →
      unwrapCount v s m = n ∧ invokeN v s m n = some (unwrapValue v s m) := by
  induction n with
  | zero =>
    intro v s m hm _
    cases v with
    | literal t =>
      exact ⟨unwrapCount_literal t s m, by rw [unwrapValue_literal]; rfl⟩
    | provider f =>
      have hs : ¬ s < m := by omega
      refine ⟨?_, ?_⟩
      · rw [unwrapCount_provider, if_neg hs]
      · rw [unwrapValue_provider, if_neg hs]; rfl
  | succ n ih =>
    intro v s m hm hc
    cases v with
    | literal t => simp [allCallable] at hc
    | provider f =>
      have hs : s < m := by omega
      have h2 := ih (f s m) (s + 1) m (by omega) (by simpa [allCallable] using hc)
      refine ⟨?_, ?_⟩
      · rw [unwrapCount_provider, if_pos hs, h2.1]
      · rw [unwrapValue_provider, if_pos hs]
        simpa [invokeN] using h2.2

/-- Resolution performs at most `maxSteps - step` provider invocations. -/
theorem unwrapCount_le {T : Type} (n : Nat) :
    ∀ (v : Value T) (s m : Nat), m - s ≤ n → unwrapCount v s m ≤ m - s := by
  induction n with
  | zero =>
    intro v s m h
    cases v with
    | literal t => rw [unwrapCount_literal]; omega
    | provider f =>
      have hs : ¬ s < m := by omega
      rw [unwrapCount_provider, if_neg hs]
      omega
  | succ n ih =>
    intro v s m h
    cases v with
    | literal t => rw [unwrapCount_literal]; omega
    | provider f =>
      by_cases hs : s < m
      · rw [unwrapCount_provider, if_pos hs]
        have := ih (f s m) (s + 1) m (by omega)
        omega
      · rw [unwrapCount_provider, if_neg hs]
        omega

/-- C1: for every provider chain given to `unwrapValue`, if the chain
reaches a literal within `k ≤ maxSteps` invocations then resolution returns
that literal after exactly `k` invocations; if the chain keeps producing
callables for the whole budget, resolution performs exactly `maxSteps`
invocations and returns whatever was produced last (callable or not); and
resolution always terminates, performing at most `maxSteps - step`
invocations for every input value, start step and budget. -/
theorem C1_unwrapValue_bounded_resolution {T : Type} [DecidableEq T] (m : Nat) :
    (∀ (v : Value T) (k : Nat) (t : T), reachesLit v 0 m k t = true → k ≤ m →
      unwrapValue v 0 m = Value.literal t ∧ unwrapCount v 0 m = k) ∧
    (∀ v : Value T, allCallable v 0 m m = true →
      unwrapCount v 0 m = m ∧ invokeN v 0 m m = some (unwrapValue v 0 m)) ∧
    (∀ (v : Value T) (s : Nat), unwrapCount v s m ≤ m - s) := by
  refine ⟨?_, ?_, ?_⟩
  · intro v k t hr hk
    exact unwrapValue_of_reachesLit k v 0 m t hr (by omega)
  · intro v hc
    exact unwrapValue_of_allCallable m v 0 m (by omega) hc
  · intro v s
    exact unwrapCount_le (m - s) v s m (le_refl _)

/-- Witness for C1 at concrete inputs: a 2-step chain under budget 3
resolves to its literal in 2 invocations; an everywhere-callable prefix of
length 3 exhausts the budget of 3 exactly; the invocation count is bounded
for a start step past the budget. -/
theorem C1_unwrapValue_bounded_resolution_witness :
    (unwrapValue (chainOf 2 (7 : Nat)) 0 3 = Value.literal 7 ∧
      unwrapCount (chainOf 2 (7 : Nat)) 0 3 = 2) ∧
    (unwrapCount (chainOf 4 (9 : Nat)) 0 3 = 3 ∧
      invokeN (chainOf 4 (9 : Nat)) 0 3 3 =
        some (unwrapValue (chainOf 4 (9 : Nat)) 0 3)) ∧
    unwrapCount (chainOf 5 (4 : Nat)) 7 3 ≤ 3 - 7 :=
  ⟨(@C1_unwrapValue_bounded_resolution Nat _ 3).1 (chainOf 2 7) 2 7
      (by decide) (by decide),
   (@C1_unwrapValue_bounded_resolution Nat _ 3).2.1 (chainOf 4 9) (by decide),
   (@C1_unwrapValue_bounded_resolution Nat _ 3).2.2 (chainOf 5 4) 7⟩

/-! ## Lemmas: `isCallable` -/

/-- C10: `isCallable` is a total, deterministic predicate returning `true`
exactly on function values and `false` on every other runtime value
(strings, numbers, booleans, objects, arrays, null, undefined). -/
theorem C10_isCallable_classification :
    (∀ val : JsValue, isCallable val = true ↔ ∃ name, val = JsValue.func name) ∧
    (∀ s, isCallable (JsValue.str s) = false) ∧
    (∀ n, isCallable (JsValue.num n) = false) ∧
    (∀ b, isCallable (JsValue.boolean b) = false) ∧
    (∀ fs, isCallable (JsValue.object fs) = false) ∧
    (∀ xs, isCallable (JsValue.array xs) = false) ∧
    isCallable JsValue.null = false ∧
    isCallable JsValue.undefined = false ∧
    (∀ f, isCallable (JsValue.func f) = true) := by
  refine ⟨?_, fun _ => rfl, fun _ => rfl, fun _ => rfl, fun _ => rfl,
    fun _ => rfl, rfl, rfl, fun _ => rfl⟩
  intro val
  cases val <;> simp [isCallable, typeOf]

/-! ## Lemmas: backtrace capture -/

/-- C8: the backtrace with `skipFrames = 1` is the backtrace with
`skipFrames = 0` with exactly the innermost frame removed and every
remaining frame shifted down by one index; and in general frame `i` of the
skip-`k` backtrace is frame `k + i` of the raw stack, so index 0 is the
frame nearest the call site and no frame below the skip count appears. -/
theorem C8_backtrace_skip (stack : List StackFrame) :
    (getStackTrace stack 1 = (getStackTrace stack 0).drop 1) ∧
    (∀ i : Nat, (getStackTrace stack 1)[i]? = (getStackTrace stack 0)[i + 1]?) ∧
    (∀ skip i : Nat, (getStackTrace stack skip)[i]? = stack[skip + i]?) := by
  refine ⟨rfl, ?_, ?_⟩
  · intro i
    simp [getStackTrace, List.getElem?_drop, Nat.add_comm]
  · intro skip i
    simp [getStackTrace, List.getElem?_drop]

/-! ## Lemmas: the host registry -/

/-- C6: `addHost` with a string registers a static provider resolving to
that address with the given or default port and timeout; with an absent
address it registers a static provider resolving to the loop-back address
with the default port and timeout; with a function it registers that
function itself, ignoring the port and timeout arguments; and in every case
it returns the facade (with its other fields unchanged) for chaining. -/
theorem C6_addHost_contract (self : RemoteDebugger) (a : String)
    (p : HostProviderFn) (port timeout : Option Nat) :
    ((addHost self (.address a) port timeout)._hostProviders =
        self._hostProviders ++ [staticHostProvider (some a) port timeout] ∧
      staticHostProvider (some a) port timeout () =
        { addr := some a, port := some (port.getD DEFAULT_PORT),
          timeout := some (timeout.getD DEFAULT_TIMEOUT) }) ∧
    ((addHost self .absent port timeout)._hostProviders =
        self._hostProviders ++ [staticHostProvider none port timeout] ∧
      staticHostProvider none port timeout () =
        { addr := some LOOPBACK_ADDRESS, port := some (port.getD DEFAULT_PORT),
          timeout := some (timeout.getD DEFAULT_TIMEOUT) }) ∧
    ((addHost self (.provider p) port timeout)._hostProviders =
        self._hostProviders ++ [p] ∧
      addHost self (.provider p) port timeout =
        addHost self (.provider p) none none) ∧
    (∀ aop, (addHost self aop port timeout).app = self.app ∧
      (addHost self aop port timeout).targetClient = self.targetClient) := by
  refine ⟨⟨rfl, rfl⟩, ⟨rfl, rfl⟩, ⟨rfl, rfl⟩, fun aop => ?_⟩
  cases aop <;> exact ⟨rfl, rfl⟩

/-- A single facade operation leaves the provider list unchanged or appends
exactly one provider to it. -/
theorem applyOp_providers (self : RemoteDebugger) (op : FacadeOp) :
    (applyOp self op)._hostProviders = self._hostProviders ∨
      ∃ q, (applyOp self op)._hostProviders = self._hostProviders ++ [q] := by
  cases op with
  | addHostOp aop port timeout => cases aop <;> exact Or.inr ⟨_, rfl⟩
  | dbgOp => exact Or.inl rfl
  | dbgIfOp => exact Or.inl rfl
  | setApp v => exact Or.inl rfl
  | setTargetClient v => exact Or.inl rfl

/-- A sequence of facade operations only ever extends the provider list. -/
theorem applyOps_providers_extend (ops : List FacadeOp) :
    ∀ self : RemoteDebugger, ∃ tail,
      (applyOps self ops)._hostProviders = self._hostProviders ++ tail := by
  induction ops with
  | nil => exact fun self => ⟨[], (List.append_nil _).symm⟩
  | cons op ops ih =>
    intro self
    obtain ⟨t2, h2⟩ := ih (applyOp self op)
    rcases applyOp_providers self op with h1 | ⟨q, h1⟩
    · exact ⟨t2, by rw [applyOps, h2, h1]⟩
    · exact ⟨q :: t2, by rw [applyOps, h2, h1, List.append_assoc]; rfl⟩

/-- C9: the provider list is append-only — an operation other than
`addHost` leaves it unchanged, `addHost` appends exactly one provider, and
over every operation sequence the previously registered providers remain,
unchanged and in order, as a prefix of the resulting list. -/
theorem C9_registry_append_only (self : RemoteDebugger) :
    (∀ op : FacadeOp,
      ((∀ aop port timeout, op ≠ FacadeOp.addHostOp aop port timeout) →
        (applyOp self op)._hostProviders = self._hostProviders) ∧
      (∀ aop port timeout, op = FacadeOp.addHostOp aop port timeout →
        ∃ q, (applyOp self op)._hostProviders = self._hostProviders ++ [q])) ∧
    (∀ ops : List FacadeOp, ∃ tail,
      (applyOps self ops)._hostProviders = self._hostProviders ++ tail) := by
  refine ⟨fun op => ⟨?_, ?_⟩, fun ops => applyOps_providers_extend ops self⟩
  · intro hne
    cases op with
    | addHostOp aop port timeout => exact absurd rfl (hne aop port timeout)
    | dbgOp => rfl
    | dbgIfOp => rfl
    | setApp v => rfl
    | setTargetClient v => rfl
  · intro aop port timeout heq
    subst heq
    cases aop <;> exact ⟨_, rfl⟩

/-! ## Lemmas: the dispatch pipeline -/

theorem handlerCalls_append (a b : List Event) :
    handlerCalls (a ++ b) = handlerCalls a ++ handlerCalls b := by
  simp [handlerCalls, List.filterMap_append]

theorem totalSenderInvoked_append (a b : List Event) :
    totalSenderInvoked (a ++ b) = totalSenderInvoked a + totalSenderInvoked b := by
  simp [totalSenderInvoked, List.countP_append]

theorem totalSendSucceeded_append (a b : List Event) :
    totalSendSucceeded (a ++ b) = totalSendSucceeded a + totalSendSucceeded b := by
  simp [totalSendSucceeded, List.countP_append]

theorem routeError_count_senderInvoked (cfg : Config) (c : String) (i : Nat) :
    (routeError cfg c).count (Event.senderInvoked i) = 0 := by
  unfold routeError
  split <;> simp

theorem routeError_count_sendSucceeded (cfg : Config) (c : String) (i : Nat) :
    (routeError cfg c).count (Event.sendSucceeded i) = 0 := by
  unfold routeError
  split <;> simp

theorem routeError_totalSenderInvoked (cfg : Config) (c : String) :
    totalSenderInvoked (routeError cfg c) = 0 := by
  unfold routeError
  split <;> simp [totalSenderInvoked]

theorem routeError_totalSendSucceeded (cfg : Config) (c : String) :
    totalSendSucceeded (routeError cfg c) = 0 := by
  unfold routeError
  split <;> simp [totalSendSucceeded]

theorem routeError_handlerCalls (cfg : Config) (c : String) :
    handlerCalls (routeError cfg c) =
      if cfg.hasErrorHandler then [c] else [] := by
  unfold routeError
  split <;> simp [handlerCalls]

theorem dispatchHost_count_senderInvoked (cfg : Config) (s i : Nat) (h : HostSpec) :
    (dispatchHost cfg s h).count (Event.senderInvoked i) =
      if s = i ∧ providerResolves h = true then 1 else 0 := by
  obtain ⟨p, r⟩ := h
  cases p with
  | throws =>
    rw [dispatchHost, routeError_count_senderInvoked]
    simp [providerResolves]
  | ok hd =>
    cases r <;>
      simp [dispatchHost, providerResolves, List.count_cons, List.count_nil,
        routeError_count_senderInvoked, List.count_append]

theorem dispatchHost_count_sendSucceeded (cfg : Config) (s i : Nat) (h : HostSpec) :
    (dispatchHost cfg s h).count (Event.sendSucceeded i) =
      if s = i ∧ hostSucceeds h = true then 1 else 0 := by
  obtain ⟨p, r⟩ := h
  cases p with
  | throws =>
    rw [dispatchHost, routeError_count_sendSucceeded]
    simp [hostSucceeds, failCategory]
  | ok hd =>
    cases r <;>
      simp [dispatchHost, hostSucceeds, failCategory, List.count_cons,
        List.count_nil, routeError_count_sendSucceeded, List.count_append]

theorem dispatchHost_totalSenderInvoked (cfg : Config) (s : Nat) (h : HostSpec) :
    totalSenderInvoked (dispatchHost cfg s h) =
      if providerResolves h = true then 1 else 0 := by
  obtain ⟨p, r⟩ := h
  cases p with
  | throws =>
    rw [dispatchHost, routeError_totalSenderInvoked]
    simp [providerResolves]
  | ok hd =>
    cases r with
    | success => simp [dispatchHost, providerResolves, totalSenderInvoked]
    | connectFail =>
      rw [dispatchHost,
        show Event.senderInvoked s :: routeError cfg "connect" =
          [Event.senderInvoked s] ++ routeError cfg "connect" from rfl,
        totalSenderInvoked_append, routeError_totalSenderInvoked]
      simp [providerResolves, totalSenderInvoked]
    | sendFail =>
      rw [dispatchHost,
        show Event.senderInvoked s :: routeError cfg "send" =
          [Event.senderInvoked s] ++ routeError cfg "send" from rfl,
        totalSenderInvoked_append, routeError_totalSenderInvoked]
      simp [providerResolves, totalSenderInvoked]

theorem dispatchHost_totalSendSucceeded (cfg : Config) (s : Nat) (h : HostSpec) :
    totalSendSucceeded (dispatchHost cfg s h) =
      if hostSucceeds h = true then 1 else 0 := by
  obtain ⟨p, r⟩ := h
  cases p with
  | throws =>
    rw [dispatchHost, routeError_totalSendSucceeded]
    simp [hostSucceeds, failCategory]
  | ok hd =>
    cases r with
    | success => simp [dispatchHost, hostSucceeds, failCategory, totalSendSucceeded]
    | connectFail =>
      rw [dispatchHost,
        show Event.senderInvoked s :: routeError cfg "connect" =
          [Event.senderInvoked s] ++ routeError cfg "connect" from rfl,
        totalSendSucceeded_append, routeError_totalSendSucceeded]
      simp [hostSucceeds, failCategory, totalSendSucceeded]
    | sendFail =>
      rw [dispatchHost,
        show Event.senderInvoked s :: routeError cfg "send" =
          [Event.senderInvoked s] ++ routeError cfg "send" from rfl,
        totalSendSucceeded_append, routeError_totalSendSucceeded]
      simp [hostSucceeds, failCategory, totalSendSucceeded]

theorem dispatchHost_handlerCalls (cfg : Config) (s : Nat) (h : HostSpec) :
    handlerCalls (dispatchHost cfg s h) =
      if cfg.hasErrorHandler then (failCategory h).toList else [] := by
  obtain ⟨p, r⟩ := h
  cases p with
  | throws =>
    rw [dispatchHost, routeError_handlerCalls]
    cases hE : cfg.hasErrorHandler <;> simp [failCategory]
  | ok hd =>
    cases r with
    | success =>
      cases hE : cfg.hasErrorHandler <;>
        simp [dispatchHost, failCategory, handlerCalls]
    | connectFail =>
      rw [dispatchHost,
        show Event.senderInvoked s :: routeError cfg "connect" =
          [Event.senderInvoked s] ++ routeError cfg "connect" from rfl,
        handlerCalls_append, routeError_handlerCalls]
      cases hE : cfg.hasErrorHandler <;> simp [failCategory, handlerCalls]
    | sendFail =>
      rw [dispatchHost,
        show Event.senderInvoked s :: routeError cfg "send" =
          [Event.senderInvoked s] ++ routeError cfg "send" from rfl,
        handlerCalls_append, routeError_handlerCalls]
      cases hE : cfg.hasErrorHandler <;> simp [failCategory, handlerCalls]

theorem dispatchAll_count_senderInvoked (cfg : Config) (i : Nat) :
    ∀ (hs : List HostSpec) (s : Nat),
      (dispatchAll cfg s hs).count (Event.senderInvoked i) =
        if s ≤ i then
          (match hs[i - s]? with
           | some h => if providerResolves h = true then 1 else 0
           | none => 0)
        else 0 := by
  intro hs
  induction hs with
  | nil =>
    intro s
    simp [dispatchAll]
  | cons h t ih =>
    intro s
    rw [dispatchAll, List.count_append, dispatchHost_count_senderInvoked, ih (s + 1)]
    rcases Nat.lt_trichotomy s i with hlt | heq | hgt
    · have h1 : ¬ (s = i ∧ providerResolves h = true) := by
        intro hc
        omega
      rw [if_neg h1, if_pos (by omega : s + 1 ≤ i), if_pos (by omega : s ≤ i)]
      have hidx : i - s = (i - (s + 1)) + 1 := by omega
      rw [hidx, List.getElem?_cons_succ]
      omega
    · subst heq
      rw [if_neg (by omega : ¬ s + 1 ≤ s), if_pos (le_refl s)]
      simp [List.getElem?_cons_zero]
    · rw [if_neg (by omega : ¬ s ≤ i), if_neg (by omega : ¬ s + 1 ≤ i),
        if_neg (by intro hc; omega)]

theorem dispatchAll_count_sendSucceeded (cfg : Config) (i : Nat) :
    ∀ (hs : List HostSpec) (s : Nat),
      (dispatchAll cfg s hs).count (Event.sendSucceeded i) =
        if s ≤ i then
          (match hs[i - s]? with
           | some h => if hostSucceeds h = true then 1 else 0
           | none => 0)
        else 0 := by
  intro hs
  induction hs with
  | nil =>
    intro s
    simp [dispatchAll]
  | cons h t ih =>
    intro s
    rw [dispatchAll, List.count_append, dispatchHost_count_sendSucceeded, ih (s + 1)]
    rcases Nat.lt_trichotomy s i with hlt | heq | hgt
    · have h1 : ¬ (s = i ∧ hostSucceeds h = true) := by
        intro hc
        omega
      rw [if_neg h1, if_pos (by omega : s + 1 ≤ i), if_pos (by omega : s ≤ i)]
      have hidx : i - s = (i - (s + 1)) + 1 := by omega
      rw [hidx, List.getElem?_cons_succ]
      omega
    · subst heq
      rw [if_neg (by omega : ¬ s + 1 ≤ s), if_pos (le_refl s)]
      simp [List.getElem?_cons_zero]
    · rw [if_neg (by omega : ¬ s ≤ i), if_neg (by omega : ¬ s + 1 ≤ i),
        if_neg (by intro hc; omega)]

theorem dispatchAll_totalSenderInvoked (cfg : Config) :
    ∀ (hs : List HostSpec) (s : Nat),
      totalSenderInvoked (dispatchAll cfg s hs) = hs.countP providerResolves := by
  intro hs
  induction hs with
  | nil => intro s; simp [dispatchAll, totalSenderInvoked]
  | cons h t ih =>
    intro s
    rw [dispatchAll, totalSenderInvoked_append, dispatchHost_totalSenderInvoked,
      ih (s + 1), List.countP_cons]
    cases hp : providerResolves h <;> simp [hp] <;> omega

theorem dispatchAll_totalSendSucceeded (cfg : Config) :
    ∀ (hs : List HostSpec) (s : Nat),
      totalSendSucceeded (dispatchAll cfg s hs) = hs.countP hostSucceeds := by
  intro hs
  induction hs with
  | nil => intro s; simp [dispatchAll, totalSendSucceeded]
  | cons h t ih =>
    intro s
    rw [dispatchAll, totalSendSucceeded_append, dispatchHost_totalSendSucceeded,
      ih (s + 1), List.countP_cons]
    cases hp : hostSucceeds h <;> simp [hp] <;> omega

theorem dispatchAll_handlerCalls (cfg : Config) :
    ∀ (hs : List HostSpec) (s : Nat),
      handlerCalls (dispatchAll cfg s hs) =
        if cfg.hasErrorHandler then hs.filterMap failCategory else [] := by
  intro hs
  induction hs with
  | nil => intro s; simp [dispatchAll, handlerCalls]
  | cons h t ih =>
    intro s
    rw [dispatchAll, handlerCalls_append, dispatchHost_handlerCalls, ih (s + 1)]
    cases hE : cfg.hasErrorHandler <;> simp [List.filterMap_cons] <;>
      cases hf : failCategory h <;> simp

theorem runDbg_count_senderInvoked (cfg : Config)
    (ht : cfg.transformThrows = false) (i : Nat) :
    (runDbg cfg).count (Event.senderInvoked i) =
      (match cfg.hosts[i]? with
       | some h => if providerResolves h = true then 1 else 0
       | none => 0) := by
  have h1 : (if cfg.unwrapThrows then routeError cfg "unwrap"
      else ([] : List Event)).count (Event.senderInvoked i) = 0 := by
    split
    · exact routeError_count_senderInvoked cfg "unwrap" i
    · rfl
  rw [runDbg, ht, List.count_append, h1, if_neg Bool.false_ne_true,
    dispatchAll_count_senderInvoked cfg i cfg.hosts 0]
  simp

theorem runDbg_count_sendSucceeded (cfg : Config)
    (ht : cfg.transformThrows = false) (i : Nat) :
    (runDbg cfg).count (Event.sendSucceeded i) =
      (match cfg.hosts[i]? with
       | some h => if hostSucceeds h = true then 1 else 0
       | none => 0) := by
  have h1 : (if cfg.unwrapThrows then routeError cfg "unwrap"
      else ([] : List Event)).count (Event.sendSucceeded i) = 0 := by
    split
    · exact routeError_count_sendSucceeded cfg "unwrap" i
    · rfl
  rw [runDbg, ht, List.count_append, h1, if_neg Bool.false_ne_true,
    dispatchAll_count_sendSucceeded cfg i cfg.hosts 0]
  simp

theorem runDbg_totalSendSucceeded (cfg : Config)
    (ht : cfg.transformThrows = false) :
    totalSendSucceeded (runDbg cfg) = cfg.hosts.countP hostSucceeds := by
  have h1 : totalSendSucceeded (if cfg.unwrapThrows then routeError cfg "unwrap"
      else ([] : List Event)) = 0 := by
    split
    · exact routeError_totalSendSucceeded cfg "unwrap"
    · rfl
  rw [runDbg, ht, totalSendSucceeded_append, h1, if_neg Bool.false_ne_true,
    dispatchAll_totalSendSucceeded cfg cfg.hosts 0]
  simp

theorem runDbg_handlerCalls (cfg : Config) :
    handlerCalls (runDbg cfg) =
      if cfg.hasErrorHandler then
        (if cfg.unwrapThrows then ["unwrap"] else []) ++
          (if cfg.transformThrows then ["transform"]
           else cfg.hosts.filterMap failCategory)
      else [] := by
  have hnil : handlerCalls ([] : List Event) = [] := rfl
  have hpre : handlerCalls (if cfg.unwrapThrows then routeError cfg "unwrap"
      else ([] : List Event)) =
      if cfg.hasErrorHandler then (if cfg.unwrapThrows then ["unwrap"] else [])
      else [] := by
    cases hU : cfg.unwrapThrows <;>
      simp [routeError_handlerCalls, hnil]
  have hmain : handlerCalls (if cfg.transformThrows then routeError cfg "transform"
      else dispatchAll cfg 0 cfg.hosts) =
      if cfg.hasErrorHandler then
        (if cfg.transformThrows then ["transform"]
         else cfg.hosts.filterMap failCategory)
      else [] := by
    cases hT : cfg.transformThrows
    · rw [if_neg Bool.false_ne_true, if_neg Bool.false_ne_true,
        dispatchAll_handlerCalls cfg cfg.hosts 0]
    · rw [if_pos rfl, if_pos rfl, routeError_handlerCalls]
  rw [runDbg, handlerCalls_append, hpre, hmain]
  cases hE : cfg.hasErrorHandler <;> simp

/-- C2 counterexample: a configuration with one registered healthy host but
a throwing `jsonTransformer` — `dbgIf` with condition `true` invokes the
sender zero times, not once per registered host, so the property does not
hold for every configuration of the facade. -/
theorem C2_dbgIf_counterexample :
    totalSenderInvoked (runDbgIf
      ⟨[⟨.ok ⟨none, none, none⟩, .success⟩], true, true, false⟩ (.lit true)) = 0 ∧
    ¬ totalSenderInvoked (runDbgIf
      ⟨[⟨.ok ⟨none, none, none⟩, .success⟩], true, true, false⟩ (.lit true)) = 1 := by
  decide

/-- C2 (amended): with condition `false` (boolean or function) the sender
is invoked zero times; with condition `true` (boolean or function), and
provided the transformer does not throw and every registered host's
provider resolves, the sender is invoked exactly once per registered host
and never for an index beyond the registry. -/
theorem C2_dbgIf_condition_gates_sender (cfg : Config)
    (ht : cfg.transformThrows = false)
    (hres : ∀ h ∈ cfg.hosts, providerResolves h = true) :
    totalSenderInvoked (runDbgIf cfg (.lit false)) = 0 ∧
    totalSenderInvoked (runDbgIf cfg (.fnOk false)) = 0 ∧
    (∀ i, i < cfg.hosts.length →
      (runDbgIf cfg (.lit true)).count (Event.senderInvoked i) = 1 ∧
      (runDbgIf cfg (.fnOk true)).count (Event.senderInvoked i) = 1) ∧
    (∀ i, cfg.hosts.length ≤ i →
      (runDbgIf cfg (.lit true)).count (Event.senderInvoked i) = 0) := by
  refine ⟨rfl, rfl, ?_, ?_⟩
  · intro i hi
    have hsome : cfg.hosts[i]? = some cfg.hosts[i] := List.getElem?_eq_getElem hi
    have hmem : cfg.hosts[i] ∈ cfg.hosts := List.getElem_mem hi
    have hone : (runDbg cfg).count (Event.senderInvoked i) = 1 := by
      rw [runDbg_count_senderInvoked cfg ht i, hsome]
      simp [hres _ hmem]
    exact ⟨hone, hone⟩
  · intro i hi
    have hnone : cfg.hosts[i]? = none := List.getElem?_eq_none hi
    show (runDbg cfg).count (Event.senderInvoked i) = 0
    rw [runDbg_count_senderInvoked cfg ht i, hnone]

/-- Witness for the amended C2 at a concrete configuration of two
resolvable hosts (one of which fails at send time): condition `false` never
reaches the sender, condition `true` invokes it exactly once for each of
the two hosts and never for index 2. -/
theorem C2_dbgIf_condition_gates_sender_witness :
    totalSenderInvoked (runDbgIf
      ⟨[⟨.ok ⟨none, none, none⟩, .connectFail⟩, ⟨.ok ⟨none, none, none⟩, .success⟩],
        true, false, false⟩ (.lit false)) = 0 ∧
    totalSenderInvoked (runDbgIf
      ⟨[⟨.ok ⟨none, none, none⟩, .connectFail⟩, ⟨.ok ⟨none, none, none⟩, .success⟩],
        true, false, false⟩ (.fnOk false)) = 0 ∧
    (∀ i, i < (⟨[⟨.ok ⟨none, none, none⟩, .connectFail⟩,
          ⟨.ok ⟨none, none, none⟩, .success⟩], true, false, false⟩ : Config).hosts.length →
      (runDbgIf ⟨[⟨.ok ⟨none, none, none⟩, .connectFail⟩,
          ⟨.ok ⟨none, none, none⟩, .success⟩], true, false, false⟩
        (.lit true)).count (Event.senderInvoked i) = 1 ∧
      (runDbgIf ⟨[⟨.ok ⟨none, none, none⟩, .connectFail⟩,
          ⟨.ok ⟨none, none, none⟩, .success⟩], true, false, false⟩
        (.fnOk true)).count (Event.senderInvoked i) = 1) ∧
    (∀ i, (⟨[⟨.ok ⟨none, none, none⟩, .connectFail⟩,
          ⟨.ok ⟨none, none, none⟩, .success⟩], true, false, false⟩ : Config).hosts.length ≤ i →
      (runDbgIf ⟨[⟨.ok ⟨none, none, none⟩, .connectFail⟩,
          ⟨.ok ⟨none, none, none⟩, .success⟩], true, false, false⟩
        (.lit true)).count (Event.senderInvoked i) = 0) :=
  C2_dbgIf_condition_gates_sender _ rfl (by decide)

/-- C3: with the registered hosts splitting as `pre ++ bad :: post`, the
hosts of `pre` and `post` all healthy (N − 1 of them) and `bad` failing
deterministically with category `cat`, one `dbg` call produces exactly
N − 1 successful sends and exactly one error-handler invocation, whose
category is `cat`; every healthy host still receives exactly one
successful send (the failure aborts nothing else, and — the model being a
pure function of the configuration — leaves later calls unaffected). -/
theorem C3_single_failure_isolation (cfg : Config) (pre post : List HostSpec)
    (bad : HostSpec) (cat : String)
    (hh : cfg.hasErrorHandler = true)
    (ht : cfg.transformThrows = false)
    (hu : cfg.unwrapThrows = false)
    (hsplit : cfg.hosts = pre ++ bad :: post)
    (hpre : ∀ h ∈ pre, failCategory h = none)
    (hpost : ∀ h ∈ post, failCategory h = none)
    (hbad : failCategory bad = some cat) :
    totalSendSucceeded (runDbg cfg) = cfg.hosts.length - 1 ∧
    handlerCalls (runDbg cfg) = [cat] ∧
    (∀ j h2, cfg.hosts[j]? = some h2 → failCategory h2 = none →
      (runDbg cfg).count (Event.sendSucceeded j) = 1) := by
  refine ⟨?_, ?_, ?_⟩
  · rw [runDbg_totalSendSucceeded cfg ht, hsplit, List.countP_append,
      List.countP_cons]
    have e1 : pre.countP hostSucceeds = pre.length :=
      List.countP_eq_length.mpr (fun h hm => by simp [hostSucceeds, hpre h hm])
    have e2 : post.countP hostSucceeds = post.length :=
      List.countP_eq_length.mpr (fun h hm => by simp [hostSucceeds, hpost h hm])
    have e3 : hostSucceeds bad = false := by simp [hostSucceeds, hbad]
    rw [e1, e2, e3]
    simp [List.length_append]
  · rw [runDbg_handlerCalls, hh, hu, ht, hsplit, List.filterMap_append,
      List.filterMap_cons, List.filterMap_eq_nil.mpr hpre,
      List.filterMap_eq_nil.mpr hpost, hbad]
    simp
  · intro j h2 hj hnone
    rw [runDbg_count_sendSucceeded cfg ht j, hj]
    simp [hostSucceeds, hnone]

/-- Witness for C3 at a concrete three-host registry whose middle host
fails to connect: two successful sends, one `"connect"` handler call, and
each healthy host receives its send. -/
theorem C3_single_failure_isolation_witness :
    totalSendSucceeded (runDbg ⟨[⟨.ok ⟨none, none, none⟩, .success⟩,
      ⟨.ok ⟨none, none, none⟩, .connectFail⟩,
      ⟨.ok ⟨none, none, none⟩, .success⟩], true, false, false⟩) =
      (⟨[⟨.ok ⟨none, none, none⟩, .success⟩,
        ⟨.ok ⟨none, none, none⟩, .connectFail⟩,
        ⟨.ok ⟨none, none, none⟩, .success⟩], true, false, false⟩ : Config).hosts.length - 1 ∧
    handlerCalls (runDbg ⟨[⟨.ok ⟨none, none, none⟩, .success⟩,
      ⟨.ok ⟨none, none, none⟩, .connectFail⟩,
      ⟨.ok ⟨none, none, none⟩, .success⟩], true, false, false⟩) = ["connect"] ∧
    (∀ j h2, (⟨[⟨.ok ⟨none, none, none⟩, .success⟩,
        ⟨.ok ⟨none, none, none⟩, .connectFail⟩,
        ⟨.ok ⟨none, none, none⟩, .success⟩], true, false, false⟩ : Config).hosts[j]? = some h2 →
      failCategory h2 = none →
      (runDbg ⟨[⟨.ok ⟨none, none, none⟩, .success⟩,
        ⟨.ok ⟨none, none, none⟩, .connectFail⟩,
        ⟨.ok ⟨none, none, none⟩, .success⟩], true, false, false⟩).count
          (Event.sendSucceeded j) = 1) :=
  C3_single_failure_isolation _ [⟨.ok ⟨none, none, none⟩, .success⟩]
    [⟨.ok ⟨none, none, none⟩, .success⟩] ⟨.ok ⟨none, none, none⟩, .connectFail⟩
    "connect" rfl rfl rfl rfl (by decide) (by decide) rfl

/-- C4: for every configuration and every condition, the categories passed
to the error handler during one `dbgIf` call are exactly the failures the
pipeline induces (each failure is caught at its origin and routed to the
handler, and the call itself — a total function — returns to the caller
rather than raising); with no error handler configured, nothing is invoked
at all: failures are silently dropped. -/
theorem C4_every_failure_routed (cfg : Config) (cond : CondVal) :
    (cfg.hasErrorHandler = true →
      handlerCalls (runDbgIf cfg cond) = inducedFailures cfg cond) ∧
    (cfg.hasErrorHandler = false → handlerCalls (runDbgIf cfg cond) = []) := by
  constructor <;> intro hE <;> cases cond with
  | lit b =>
    cases b
    · rfl
    · rw [show runDbgIf cfg (.lit true) = runDbg cfg from rfl, runDbg_handlerCalls, hE]
      simp [inducedFailures]
  | fnOk b =>
    cases b
    · rfl
    · rw [show runDbgIf cfg (.fnOk true) = runDbg cfg from rfl, runDbg_handlerCalls, hE]
      simp [inducedFailures]
  | fnThrows =>
    rw [show runDbgIf cfg .fnThrows = routeError cfg "condition" from rfl,
      routeError_handlerCalls, hE]
    simp [inducedFailures]

/-- Witness for C4 at concrete configurations: a throwing condition routes
exactly `["condition"]` to the configured handler, and the same
configuration without a handler invokes it zero times. -/
theorem C4_every_failure_routed_witness :
    handlerCalls (runDbgIf ⟨[⟨.throws, .success⟩], true, false, true⟩ .fnThrows) =
      inducedFailures ⟨[⟨.throws, .success⟩], true, false, true⟩ .fnThrows ∧
    handlerCalls (runDbgIf ⟨[⟨.throws, .success⟩], false, false, true⟩ (.lit true)) = [] :=
  ⟨(C4_every_failure_routed ⟨[⟨.throws, .success⟩], true, false, true⟩ .fnThrows).1 rfl,
   (C4_every_failure_routed ⟨[⟨.throws, .success⟩], false, false, true⟩ (.lit true)).2 rfl⟩

/-- C5: when the configured `jsonTransformer` throws (and nothing else
fails), one `dbg` call produces exactly one error-handler invocation, with
category `"transform"`, and the sender is never invoked for that message —
only this entry's transmission is aborted (and, the model being a pure
function of the configuration, later calls are unaffected). -/
theorem C5_transform_throw_aborts_entry (cfg : Config)
    (hh : cfg.hasErrorHandler = true)
    (ht : cfg.transformThrows = true)
    (hu : cfg.unwrapThrows = false) :
    handlerCalls (runDbg cfg) = ["transform"] ∧
    totalSenderInvoked (runDbg cfg) = 0 ∧
    totalSendSucceeded (runDbg cfg) = 0 := by
  refine ⟨?_, ?_, ?_⟩
  · rw [runDbg_handlerCalls, hh, hu, ht]
    simp
  · rw [runDbg, hu, ht, totalSenderInvoked_append, if_neg Bool.false_ne_true,
      if_pos rfl, routeError_totalSenderInvoked]
    simp [totalSenderInvoked]
  · rw [runDbg, hu, ht, totalSendSucceeded_append, if_neg Bool.false_ne_true,
      if_pos rfl, routeError_totalSendSucceeded]
    simp [totalSendSucceeded]

/-- Witness for C5 at a concrete configuration of two healthy hosts and a
throwing transformer. -/
theorem C5_transform_throw_aborts_entry_witness :
    handlerCalls (runDbg ⟨[⟨.ok ⟨none, none, none⟩, .success⟩,
      ⟨.ok ⟨none, none, none⟩, .success⟩], true, true, false⟩) = ["transform"] ∧
    totalSenderInvoked (runDbg ⟨[⟨.ok ⟨none, none, none⟩, .success⟩,
      ⟨.ok ⟨none, none, none⟩, .success⟩], true, true, false⟩) = 0 ∧
    totalSendSucceeded (runDbg ⟨[⟨.ok ⟨none, none, none⟩, .success⟩,
      ⟨.ok ⟨none, none, none⟩, .success⟩], true, true, false⟩) = 0 :=
  C5_transform_throw_aborts_entry _ rfl rfl rfl

/-! ## Lemmas: the JSON wire round trip -/

theorem string_mk_data (s : String) : String.mk s.data = s := by
  cases s
  rfl

theorem parseStringBody_cons (c : Char) (rest : List Char) :
    parseStringBody (c :: rest) =
      if c = '"' then some ([], rest)
      else if c = '\\' then
        match rest with
        | [] => none
        | d :: rest2 =>
          match parseStringBody rest2 with
          | some (s, r) => some (d :: s, r)
          | none => none
      else
        match parseStringBody rest with
        | some (s, r) => some (c :: s, r)
        | none => none := by
  rw [parseStringBody.eq_def]

theorem parseStringBody_escape (l : List Char) :
    ∀ rest, parseStringBody (escapeList l ++ '"' :: rest) = some (l, rest) := by
  induction l with
  | nil =>
    intro rest
    rw [show escapeList [] = [] from rfl, List.nil_append, parseStringBody_cons]
    simp
  | cons c cs ih =>
    intro rest
    by_cases hc : c = '"' ∨ c = '\\'
    · rw [escapeList, escapeChar, if_pos hc]
      simp only [List.cons_append, List.nil_append]
      rw [parseStringBody_cons]
      simp [ih rest]
    · have h1 : ¬ c = '"' := fun h => hc (Or.inl h)
      have h2 : ¬ c = '\\' := fun h => hc (Or.inr h)
      rw [escapeList, escapeChar, if_neg hc]
      simp only [List.cons_append, List.nil_append]
      rw [parseStringBody_cons, if_neg h1, if_neg h2, ih rest]

theorem digitChar_facts (d : Nat) (hd : d < 10) :
    isDigitChar (digitChar d) = true ∧ charDigit (digitChar d) = d ∧
    digitChar d ≠ '"' ∧ digitChar d ≠ '[' ∧ digitChar d ≠ '\x7b' ∧
    digitChar d ≠ 'n' ∧ digitChar d ≠ 't' ∧ digitChar d ≠ 'f' ∧
    digitChar d ≠ ']' ∧ digitChar d ≠ '\x7d' ∧ digitChar d ≠ ',' ∧
    digitChar d ≠ ':' := by
  interval_cases d <;> decide

theorem natDigitsAux_spec (fuel : Nat) :
    ∀ n, n ≤ fuel →
      natDigitsAux fuel n ≠ [] ∧
      (∀ c ∈ natDigitsAux fuel n, ∃ d, d < 10 ∧ c = digitChar d) := by
  induction fuel with
  | zero =>
    intro n hn
    have hz : n = 0 := by omega
    subst hz
    refine ⟨by simp [natDigitsAux], ?_⟩
    intro c hc
    simp [natDigitsAux] at hc
    exact ⟨0, by omega, by simpa using hc⟩
  | succ fuel ih =>
    intro n hn
    by_cases h10 : n < 10
    · rw [natDigitsAux, if_pos h10]
      exact ⟨by simp, fun c hc => ⟨n, h10, by simpa using hc⟩⟩
    · rw [natDigitsAux, if_neg h10]
      have hrec := ih (n / 10) (by omega)
      refine ⟨by simp, ?_⟩
      intro c hc
      rcases List.mem_append.mp hc with h | h
      · exact hrec.2 c h
      · exact ⟨n % 10, by omega, by simpa using h⟩

theorem natDigitsAux_foldl (fuel : Nat) :
    ∀ n acc, n ≤ fuel →
      (natDigitsAux fuel n).foldl (fun a c => 10 * a + charDigit c) acc =
        acc * 10 ^ (natDigitsAux fuel n).length + n := by
  induction fuel with
  | zero =>
    intro n acc hn
    have hz : n = 0 := by omega
    subst hz
    have hcd := (digitChar_facts 0 (by omega)).2.1
    simp [natDigitsAux, List.foldl, hcd]
    ring
  | succ fuel ih =>
    intro n acc hn
    by_cases h10 : n < 10
    · rw [natDigitsAux, if_pos h10]
      have hcd := (digitChar_facts n h10).2.1
      simp [List.foldl, hcd]
      omega
    · rw [natDigitsAux, if_neg h10]
      rw [List.foldl_append, ih (n / 10) acc (by omega)]
      have hcd := (digitChar_facts (n % 10) (by omega)).2.1
      have hsplit : 10 * (n / 10) + n % 10 = n := by omega
      simp only [List.foldl_cons, List.foldl_nil, List.length_append,
        List.length_cons, List.length_nil, hcd]
      calc 10 * (acc * 10 ^ (natDigitsAux fuel (n / 10)).length + n / 10) + n % 10
          = acc * (10 ^ (natDigitsAux fuel (n / 10)).length * 10) +
              (10 * (n / 10) + n % 10) := by ring
        _ = acc * 10 ^ ((natDigitsAux fuel (n / 10)).length + (0 + 1)) + n := by
            rw [hsplit]
            ring


theorem takeWhile_append_of_all (p : Char → Bool) :
    ∀ (l r : List Char), (∀ c ∈ l, p c = true) →
      (∀ c, r.head? = some c → p c = false) →
      (l ++ r).takeWhile p = l ∧ (l ++ r).dropWhile p = r := by
  intro l
  induction l with
  | nil =>
    intro r _ hr
    cases r with
    | nil => exact ⟨rfl, rfl⟩
    | cons c r2 =>
      have hc := hr c rfl
      simp [List.takeWhile_cons, List.dropWhile_cons, hc]
  | cons c cs ih =>
    intro r hl hr
    have hc : p c = true := hl c (by simp)
    have hrec := ih r (fun x hx => hl x (by simp [hx])) hr
    simp [List.takeWhile_cons, List.dropWhile_cons, hc, hrec.1, hrec.2]

theorem parseNumber_natDigits (n : Nat) (rest : List Char)
    (hrest : noDigitHead rest) :
    parseNumber (natDigits n ++ rest) = some (n, rest) := by
  obtain ⟨hne, hall⟩ := natDigitsAux_spec n n (le_refl n)
  have halld : ∀ c ∈ natDigits n, isDigitChar c = true := by
    intro c hc
    obtain ⟨d, hd, rfl⟩ := hall c hc
    exact (digitChar_facts d hd).1
  have hr : ∀ c, rest.head? = some c → isDigitChar c = false := by
    intro c hc
    cases rest with
    | nil => simp at hc
    | cons x xs =>
      cases hc
      exact hrest
  obtain ⟨htake, hdrop⟩ := takeWhile_append_of_all isDigitChar (natDigits n) rest halld hr
  rw [parseNumber]
  simp only [htake, hdrop]
  rw [if_neg (by simpa [List.isEmpty_iff] using hne)]
  have hval := natDigitsAux_foldl n n 0 (le_refl n)
  rw [show (natDigits n : List Char) = natDigitsAux n n from rfl, hval]
  simp

theorem jsonSize_pos (j : Json) : 1 ≤ jsonSize j := by
  cases j <;> rw [jsonSize] <;> omega

theorem jsonSizeItems_pos (xs : List Json) : 1 ≤ jsonSizeItems xs := by
  cases xs <;> rw [jsonSizeItems] <;> omega

theorem jsonSizeFields_pos (fs : List (String × Json)) : 1 ≤ jsonSizeFields fs := by
  cases fs with
  | nil => rw [jsonSizeFields]
  | cons kv fs2 =>
    obtain ⟨k, v⟩ := kv
    rw [jsonSizeFields]
    omega

theorem renderJson_head (j : Json) :
    ∃ c t, renderJson j = c :: t ∧ c ≠ ']' ∧ c ≠ '\x7d' := by
  cases j with
  | null => exact ⟨'n', ['u', 'l', 'l'], by simp [renderJson], by decide, by decide⟩
  | bool b =>
    cases b
    · exact ⟨'f', ['a', 'l', 's', 'e'], by simp [renderJson], by decide, by decide⟩
    · exact ⟨'t', ['r', 'u', 'e'], by simp [renderJson], by decide, by decide⟩
  | num n =>
    obtain ⟨hne, hall⟩ := natDigitsAux_spec n n (le_refl n)
    cases hl : natDigitsAux n n with
    | nil => exact absurd hl hne
    | cons c t =>
      obtain ⟨d, hd, rfl⟩ := hall c (by rw [hl]; simp)
      obtain ⟨_, _, _, _, _, _, _, _, f9, f10, _, _⟩ := digitChar_facts d hd
      exact ⟨digitChar d, t, by rw [renderJson]; exact hl, f9, f10⟩
  | str s =>
    exact ⟨'"', escapeList s.data ++ ['"'], by rw [renderJson], by decide, by decide⟩
  | arr xs =>
    exact ⟨'[', renderItems xs ++ [']'], by rw [renderJson], by decide, by decide⟩
  | obj fs =>
    exact ⟨'\x7b', renderFields fs ++ ['\x7d'], by rw [renderJson], by decide, by decide⟩

theorem parseItems_succ (fuel : Nat) (cs : List Char) :
    parseItems (fuel + 1) cs =
      if cs.head? = some ']' then some (.arr [], cs.tail)
      else
        match parseValue fuel cs with
        | some (x, ',' :: r) =>
          match parseItems fuel r with
          | some (.arr xs, r2) => some (.arr (x :: xs), r2)
          | _ => none
        | some (x, ']' :: r) => some (.arr [x], r)
        | _ => none := rfl

theorem parseFields_quote (fuel : Nat) (cs1 : List Char) :
    parseFields (fuel + 1) ('"' :: cs1) =
      match parseStringBody cs1 with
      | some (k, ':' :: cs2) =>
        match parseValue fuel cs2 with
        | some (v, ',' :: cs3) =>
          match parseFields fuel cs3 with
          | some (.obj fs, r) => some (.obj ((String.mk k, v) :: fs), r)
          | _ => none
        | some (v, '\x7d' :: cs3) => some (.obj [(String.mk k, v)], cs3)
        | _ => none
      | _ => none := rfl

/-- Parsing inverts rendering: with fuel at least the size of the value,
the parser returns exactly the rendered value and the untouched remainder
(the remainder must not start with a digit, so that a rendered number is
not extended). -/
theorem parse_render (fuel : Nat) :
    (∀ (j : Json) (rest : List Char), jsonSize j ≤ fuel → noDigitHead rest →
      parseValue fuel (renderJson j ++ rest) = some (j, rest)) ∧
    (∀ (xs : List Json) (rest : List Char), jsonSizeItems xs ≤ fuel →
      parseItems fuel (renderItems xs ++ ']' :: rest) = some (.arr xs, rest)) ∧
    (∀ (fs : List (String × Json)) (rest : List Char), jsonSizeFields fs ≤ fuel →
      parseFields fuel (renderFields fs ++ '\x7d' :: rest) = some (.obj fs, rest)) := by
  induction fuel using Nat.strong_induction_on with
  | _ fuel ih =>
    rcases fuel with _ | fuel
    · refine ⟨?_, ?_, ?_⟩
      · intro j rest hsz _
        exact absurd hsz (by have := jsonSize_pos j; omega)
      · intro xs rest hsz
        exact absurd hsz (by have := jsonSizeItems_pos xs; omega)
      · intro fs rest hsz
        exact absurd hsz (by have := jsonSizeFields_pos fs; omega)
    · refine ⟨?_, ?_, ?_⟩
      · -- one JSON value
        intro j rest hsz hrest
        cases j with
        | null =>
          rw [show renderJson Json.null = ['n', 'u', 'l', 'l'] from by
            simp [renderJson]]
          rfl
        | bool b =>
          cases b
          · rw [show renderJson (Json.bool false) = ['f', 'a', 'l', 's', 'e'] from by
              simp [renderJson]]
            rfl
          · rw [show renderJson (Json.bool true) = ['t', 'r', 'u', 'e'] from by
              simp [renderJson]]
            rfl
        | num n =>
          obtain ⟨hne, hall⟩ := natDigitsAux_spec n n (le_refl n)
          rw [show renderJson (Json.num n) = natDigits n from by rw [renderJson]]
          cases hl : (natDigits n : List Char) with
          | nil => exact absurd hl hne
          | cons c t =>
            obtain ⟨d, hd, rfl⟩ := hall c (by rw [show natDigitsAux n n = natDigits n from rfl, hl]; simp)
            rw [List.cons_append]
            have hstep : parseValue (fuel + 1) (digitChar d :: (t ++ rest)) =
                (match parseNumber (digitChar d :: (t ++ rest)) with
                 | some (k, r) => some (Json.num k, r)
                 | none => none) := by
              interval_cases d <;> rfl
            have hpn := parseNumber_natDigits n rest hrest
            rw [hl, List.cons_append] at hpn
            rw [hstep, hpn]
        | str s =>
          rw [show renderJson (Json.str s) = '"' :: (escapeList s.data ++ ['"']) from by
            rw [renderJson]]
          rw [List.cons_append, List.append_assoc,
            show (['"'] : List Char) ++ rest = '"' :: rest from rfl]
          rw [show parseValue (fuel + 1) ('"' :: (escapeList s.data ++ '"' :: rest)) =
              (match parseStringBody (escapeList s.data ++ '"' :: rest) with
               | some (k, r) => some (Json.str (String.mk k), r)
               | none => none) from rfl]
          rw [parseStringBody_escape s.data rest]
        | arr xs =>
          rw [show renderJson (Json.arr xs) = '[' :: (renderItems xs ++ [']']) from by
            rw [renderJson]]
          rw [List.cons_append, List.append_assoc,
            show ([']'] : List Char) ++ rest = ']' :: rest from rfl]
          rw [show parseValue (fuel + 1) ('[' :: (renderItems xs ++ ']' :: rest)) =
              parseItems fuel (renderItems xs ++ ']' :: rest) from rfl]
          have hsz2 : jsonSizeItems xs ≤ fuel := by
            rw [jsonSize] at hsz
            omega
          exact (ih fuel (by omega)).2.1 xs rest hsz2
        | obj fs =>
          rw [show renderJson (Json.obj fs) = '\x7b' :: (renderFields fs ++ ['\x7d']) from by
            rw [renderJson]]
          rw [List.cons_append, List.append_assoc,
            show (['\x7d'] : List Char) ++ rest = '\x7d' :: rest from rfl]
          rw [show parseValue (fuel + 1) ('\x7b' :: (renderFields fs ++ '\x7d' :: rest)) =
              parseFields fuel (renderFields fs ++ '\x7d' :: rest) from rfl]
          have hsz2 : jsonSizeFields fs ≤ fuel := by
            rw [jsonSize] at hsz
            omega
          exact (ih fuel (by omega)).2.2 fs rest hsz2
      · -- array element lists
        intro xs rest hsz
        cases xs with
        | nil =>
          rw [show renderItems [] = [] from by rw [renderItems], List.nil_append]
          rfl
        | cons x xs2 =>
          obtain ⟨c, t, hcx, hc1, hc2⟩ := renderJson_head x
          cases xs2 with
          | nil =>
            rw [show renderItems [x] = renderJson x from by rw [renderItems]]
            have hguard : ¬ ((renderJson x ++ ']' :: rest).head? = some ']') := by
              rw [hcx]
              simp [hc1]
            rw [parseItems_succ, if_neg hguard]
            have hszx : jsonSize x ≤ fuel := by
              rw [jsonSizeItems, jsonSizeItems] at hsz
              omega
            rw [(ih fuel (by omega)).1 x (']' :: rest) hszx (by exact rfl)]
            rfl
          | cons y ys =>
            rw [show renderItems (x :: y :: ys) =
                renderJson x ++ ',' :: renderItems (y :: ys) from by rw [renderItems]]
            rw [List.append_assoc,
              show (',' :: renderItems (y :: ys)) ++ ']' :: rest =
                ',' :: (renderItems (y :: ys) ++ ']' :: rest) from rfl]
            have hguard : ¬ ((renderJson x ++
                ',' :: (renderItems (y :: ys) ++ ']' :: rest)).head? = some ']') := by
              rw [hcx]
              simp [hc1]
            rw [parseItems_succ, if_neg hguard]
            have hszx : jsonSize x ≤ fuel := by
              rw [jsonSizeItems] at hsz
              have := jsonSizeItems_pos (y :: ys)
              omega
            have hszys : jsonSizeItems (y :: ys) ≤ fuel := by
              rw [jsonSizeItems] at hsz
              have := jsonSize_pos x
              omega
            rw [(ih fuel (by omega)).1 x
              (',' :: (renderItems (y :: ys) ++ ']' :: rest)) hszx (by exact rfl)]
            simp only []
            rw [(ih fuel (by omega)).2.1 (y :: ys) rest hszys]
      · -- object member lists
        intro fs rest hsz
        cases fs with
        | nil =>
          rw [show renderFields [] = [] from by rw [renderFields], List.nil_append]
          rfl
        | cons kv fs2 =>
          obtain ⟨k, v⟩ := kv
          cases fs2 with
          | nil =>
            rw [show renderFields [(k, v)] = renderKV k v from by rw [renderFields]]
            rw [show renderKV k v =
                '"' :: (escapeList k.data ++ '"' :: ':' :: renderJson v) from by
              rw [renderKV]]
            rw [List.cons_append, List.append_assoc,
              show ('"' :: ':' :: renderJson v) ++ '\x7d' :: rest =
                '"' :: (':' :: (renderJson v ++ '\x7d' :: rest)) from by simp]
            rw [parseFields_quote,
              parseStringBody_escape k.data (':' :: (renderJson v ++ '\x7d' :: rest))]
            simp only []
            have hszv : jsonSize v ≤ fuel := by
              rw [jsonSizeFields, jsonSizeFields] at hsz
              omega
            rw [(ih fuel (by omega)).1 v ('\x7d' :: rest) hszv (by exact rfl)]
            simp [string_mk_data]
          | cons g gs =>
            rw [show renderFields ((k, v) :: g :: gs) =
                renderKV k v ++ ',' :: renderFields (g :: gs) from by rw [renderFields]]
            rw [show renderKV k v =
                '"' :: (escapeList k.data ++ '"' :: ':' :: renderJson v) from by
              rw [renderKV]]
            simp only [List.cons_append, List.append_assoc]
            rw [parseFields_quote, parseStringBody_escape k.data
              (':' :: (renderJson v ++ ',' :: (renderFields (g :: gs) ++ '\x7d' :: rest)))]
            simp only []
            have hszv : jsonSize v ≤ fuel := by
              rw [jsonSizeFields] at hsz
              have := jsonSizeFields_pos (g :: gs)
              omega
            have hszgs : jsonSizeFields (g :: gs) ≤ fuel := by
              rw [jsonSizeFields] at hsz
              have := jsonSize_pos v
              omega
            rw [(ih fuel (by omega)).1 v
              (',' :: (renderFields (g :: gs) ++ '\x7d' :: rest)) hszv (by exact rfl)]
            simp only []
            rw [(ih fuel (by omega)).2.2 (g :: gs) rest hszgs]

theorem frameFromJson_frameToJson (rf : RemoteDebuggerStackFrame) :
    frameFromJson (frameToJson rf) = some rf := by
  obtain ⟨f, fn, i, l, ln, n⟩ := rf
  rcases f <;> rcases fn <;> rcases i <;> rcases l <;> rcases ln <;> rcases n <;> rfl

theorem varFromJson_varToJson (vr : RemoteDebuggerVariable) :
    varFromJson (varToJson vr) = some vr := by
  obtain ⟨fn, n, o, r, t, v⟩ := vr
  rcases fn <;> rcases n <;> rcases o <;> rcases r <;> rcases t <;> rcases v <;> rfl

theorem decodeAll_map {α : Type} (dec : Json → Option α) (enc : α → Json)
    (h : ∀ a, dec (enc a) = some a) :
    ∀ l : List α, decodeAll dec (l.map enc) = some l := by
  intro l
  induction l with
  | nil => rfl
  | cons x xs ih => rw [List.map_cons, decodeAll, h x, ih]

theorem entryFromJson_entryToJson (app client : Option String) (ev : EventData) :
    entryFromJson (entryToJson (entryOf app client ev)) =
      some (entryOf app client ev) := by
  have hf := decodeAll_map frameFromJson frameToJson frameFromJson_frameToJson
    (withIndexFrom condenseFrame 0 ev.backtrace)
  have hv := decodeAll_map varFromJson varToJson varFromJson_varToJson
    (ev.vars.map (fun p => condenseVariable p.1 p.2))
  simp only [List.map_map] at hv
  rcases app with _ | a <;> rcases client with _ | c <;>
    simp [entryOf, entryToJson, optField, entryFromJson, strFieldD, natFieldD,
      arrFieldD, jsonFieldD, getField, decodeOptList, hf, hv]

/-- The parser fuel `2 * length + 2` used by `decodeEntryBuffer` always
covers the size of the rendered value. -/
theorem jsonSize_le_render (bound : Nat) :
    (∀ j : Json, jsonSize j ≤ bound → jsonSize j ≤ 2 * (renderJson j).length) ∧
    (∀ xs : List Json, jsonSizeItems xs ≤ bound →
      jsonSizeItems xs ≤ 2 * (renderItems xs).length + 2) ∧
    (∀ fs : List (String × Json), jsonSizeFields fs ≤ bound →
      jsonSizeFields fs ≤ 2 * (renderFields fs).length + 2) := by
  induction bound with
  | zero =>
    refine ⟨?_, ?_, ?_⟩
    · intro j hsz
      exact absurd hsz (by have := jsonSize_pos j; omega)
    · intro xs hsz
      exact absurd hsz (by have := jsonSizeItems_pos xs; omega)
    · intro fs hsz
      exact absurd hsz (by have := jsonSizeFields_pos fs; omega)
  | succ bound ih =>
    obtain ⟨ihV, ihI, ihF⟩ := ih
    refine ⟨?_, ?_, ?_⟩
    · intro j hsz
      cases j with
      | null =>
        rw [jsonSize, show renderJson Json.null = ['n', 'u', 'l', 'l'] from by
          simp [renderJson]]
        decide
      | bool b =>
        cases b
        · rw [jsonSize, show renderJson (Json.bool false) = ['f', 'a', 'l', 's', 'e'] from by
            simp [renderJson]]
          decide
        · rw [jsonSize, show renderJson (Json.bool true) = ['t', 'r', 'u', 'e'] from by
            simp [renderJson]]
          decide
      | num n =>
        rw [jsonSize, show renderJson (Json.num n) = natDigits n from by rw [renderJson]]
        have hne := (natDigitsAux_spec n n (le_refl n)).1
        have hpos : 0 < (natDigits n).length := List.length_pos.mpr hne
        omega
      | str s =>
        rw [jsonSize, show renderJson (Json.str s) =
            '"' :: (escapeList s.data ++ ['"']) from by rw [renderJson]]
        simp only [List.length_cons, List.length_append]
        omega
      | arr xs =>
        rw [jsonSize] at hsz ⊢
        rw [show renderJson (Json.arr xs) = '[' :: (renderItems xs ++ [']']) from by
          rw [renderJson]]
        have hi := ihI xs (by omega)
        simp only [List.length_cons, List.length_append]
        omega
      | obj fs =>
        rw [jsonSize] at hsz ⊢
        rw [show renderJson (Json.obj fs) = '\x7b' :: (renderFields fs ++ ['\x7d']) from by
          rw [renderJson]]
        have hi := ihF fs (by omega)
        simp only [List.length_cons, List.length_append]
        omega
    · intro xs hsz
      cases xs with
      | nil =>
        rw [jsonSizeItems]
        omega
      | cons x xs2 =>
        cases xs2 with
        | nil =>
          rw [jsonSizeItems, jsonSizeItems] at hsz ⊢
          rw [show renderItems [x] = renderJson x from by rw [renderItems]]
          have hv := ihV x (by omega)
          omega
        | cons y ys =>
          rw [jsonSizeItems] at hsz ⊢
          rw [show renderItems (x :: y :: ys) =
              renderJson x ++ ',' :: renderItems (y :: ys) from by rw [renderItems]]
          have hv := ihV x (by have := jsonSizeItems_pos (y :: ys); omega)
          have hi := ihI (y :: ys) (by have := jsonSize_pos x; omega)
          simp only [List.length_append, List.length_cons]
          omega
    · intro fs hsz
      cases fs with
      | nil =>
        rw [jsonSizeFields]
        omega
      | cons kv fs2 =>
        obtain ⟨k, v⟩ := kv
        cases fs2 with
        | nil =>
          rw [jsonSizeFields, jsonSizeFields] at hsz ⊢
          rw [show renderFields [(k, v)] = renderKV k v from by rw [renderFields],
            show renderKV k v = '"' :: (escapeList k.data ++ '"' :: ':' :: renderJson v) from by
              rw [renderKV]]
          have hv := ihV v (by omega)
          simp only [List.length_cons, List.length_append]
          omega
        | cons g gs =>
          rw [jsonSizeFields] at hsz ⊢
          rw [show renderFields ((k, v) :: g :: gs) =
              renderKV k v ++ ',' :: renderFields (g :: gs) from by rw [renderFields],
            show renderKV k v = '"' :: (escapeList k.data ++ '"' :: ':' :: renderJson v) from by
              rw [renderKV]]
          have hv := ihV v (by have := jsonSizeFields_pos (g :: gs); omega)
          have hi := ihF (g :: gs) (by have := jsonSize_pos v; omega)
          simp only [List.length_append, List.length_cons]
          omega

/-- Decoding inverts encoding at the level of whole wire buffers. -/
theorem decodeEntryBuffer_encodeEntryBuffer (app client : Option String)
    (ev : EventData) :
    decodeEntryBuffer (encodeEntryBuffer (entryOf app client ev)) =
      some (entryOf app client ev) := by
  rw [decodeEntryBuffer, encodeEntryBuffer]
  have hsz : jsonSize (entryToJson (entryOf app client ev)) ≤
      2 * (renderJson (entryToJson (entryOf app client ev))).length :=
    (jsonSize_le_render (jsonSize (entryToJson (entryOf app client ev)))).1 _
      (le_refl _)
  have hparse := (parse_render
      (2 * (renderJson (entryToJson (entryOf app client ev))).length + 2)).1
    (entryToJson (entryOf app client ev)) [] (by omega) trivial
  rw [List.append_nil] at hparse
  rw [hparse]
  exact entryFromJson_entryToJson app client ev

/-- C7: encoding an `EventData` holding one stack frame and one variable to
the JSON wire buffer and decoding that buffer yields a condensed entry
whose `s` is exactly the one condensed frame (id 0) and whose `v` is
exactly the one condensed variable, field-for-field under the condensed key
mapping (file ↦ `f`, line ↦ `l`, function ↦ `n`, index ↦ `i`; name ↦ `n`,
type tag ↦ `t`, value ↦ `v`, function name ↦ `fn`, object name ↦ `on`). -/
theorem C7_wire_roundtrip (app client : Option String) (fr : StackFrame)
    (nm : String) (val : VarValue) :
    decodeEntryBuffer (encodeEntryBuffer
        (entryOf app client ⟨[fr], none, ⟨none, none, none⟩, 0, [(nm, val)]⟩)) =
      some (entryOf app client ⟨[fr], none, ⟨none, none, none⟩, 0, [(nm, val)]⟩) ∧
    (entryOf app client ⟨[fr], none, ⟨none, none, none⟩, 0, [(nm, val)]⟩).s =
      some [condenseFrame 0 fr] ∧
    (entryOf app client ⟨[fr], none, ⟨none, none, none⟩, 0, [(nm, val)]⟩).v =
      some [condenseVariable nm val] ∧
    (condenseFrame 0 fr).f = fr.file ∧ (condenseFrame 0 fr).l = fr.line ∧
    (condenseFrame 0 fr).n = fr.func ∧ (condenseFrame 0 fr).i = some 0 ∧
    (condenseVariable nm val).n = some nm ∧
    (condenseVariable nm val).t = some (typeTag val) :=
  ⟨decodeEntryBuffer_encodeEntryBuffer app client _, rfl, rfl, rfl, rfl, rfl,
    rfl, rfl, rfl⟩

end NodeRemoteDebugger
